import Mathlib

/-!
Shallow embedding of the arena allocator in src/malloc.c (the sbrk based,
doubly linked variant; the chain of blocks is modelled as a list in
next-pointer order, a block is addressed by the byte address of its header,
and machine size_t arithmetic is Nat with explicit reduction mod 2^64).
The data field of a block holds the bytes of its payload region.
-/

namespace Malloc

/-- HEAP_INITIAL_SIZE from malloc.h line 8. -/
def HEAP_INITIAL_SIZE : Nat := 1024 * 1024

/-- HEAP_GROW_FACTOR from malloc.h line 9; defined by the configuration but
never referenced by the code in src/malloc.c. -/
def HEAP_GROW_FACTOR : Nat := 2

/-- HEAP_ALIGNMENT from malloc.h line 10. -/
def HEAP_ALIGNMENT : Nat := 8

/-- Modelled from the spec: the BlockHeader struct of the doubly linked
variant used by src/malloc.c (fields previous, size, next and a flexible
payload array) is not itself under src/; per spec section 3 it holds two
block references and the packed size word, so sizeof(BlockHeader) is three
8-byte words on the 64-bit target. -/
def BLOCKHEADER_SIZE : Nat := 24

/-- Number of values of size_t / uintptr_t on the 64-bit target. -/
def UINTPTR_CARD : Nat := 2 ^ 64

/-- IN_USE_MASK / MOST_SIGNIFICANT_BIT_MASK from malloc.h: bit 63. -/
def IN_USE_MASK : Nat := 2 ^ 63

/-- One block of the chain: header address, raw packed size field
(bit 63 is the in-use bit) and the bytes of the payload region. -/
structure BlockHeader where
  addr : Nat
  size : Nat
  data : List Nat
deriving Repr, DecidableEq

/-- BLOCK_SIZE macro: size with the in-use bit masked off
(size & SIZE_MASK, written arithmetically for a value below 2^64). -/
def BLOCK_SIZE (b : BlockHeader) : Nat := b.size % IN_USE_MASK

/-- The in-use bit of the packed size field ((size & IN_USE_MASK) >> 63,
written arithmetically for a value below 2^64). -/
def inUseBit (b : BlockHeader) : Nat := b.size / IN_USE_MASK

/-- BLOCK_IN_USE macro (as a condition: the extracted bit equals 1). -/
def BLOCK_IN_USE (b : BlockHeader) : Bool := inUseBit b == 1

/-- BLOCK_FREE macro: 1 - BLOCK_IN_USE. -/
def BLOCK_FREE (b : BlockHeader) : Bool := ! BLOCK_IN_USE b

/-- BLOCK_END macro: address one past the payload,
(uintptr_t)block + BLOCKHEADER_SIZE + BLOCK_SIZE(block). -/
def BLOCK_END (b : BlockHeader) : Nat := b.addr + BLOCKHEADER_SIZE + BLOCK_SIZE b

/-- NEW_SIZE macro: newSize | (inUse * IN_USE_MASK), written arithmetically
for newSize below 2^64 and inUse in {0,1}. -/
def NEW_SIZE (inUse newSize : Nat) : Nat :=
  if newSize < IN_USE_MASK then newSize + inUse * IN_USE_MASK else newSize

/-- Setting the in-use bit, size |= IN_USE_MASK, written arithmetically for
a value below 2^64. -/
def orInUse (s : Nat) : Nat := if s < IN_USE_MASK then s + IN_USE_MASK else s

/-- ALIGN_SIZE macro: round up to the next multiple of HEAP_ALIGNMENT
(the addition wraps mod 2^64 in size_t). -/
def ALIGN_SIZE (n : Nat) : Nat :=
  if n % HEAP_ALIGNMENT = 0 then n
  else (n + (HEAP_ALIGNMENT - n % HEAP_ALIGNMENT)) % UINTPTR_CARD

/-- The allocator state: the chain of blocks headed by the global heap
pointer, in next-pointer order, plus the current program break (the address
the next successful sbrk call returns). The empty list is heap == NULL. -/
structure Heap where
  blocks : List BlockHeader
  brk : Nat
deriving Repr, DecidableEq

/-- Bytes left behind in the payload by an absorbed follower header; their
concrete values never enter any verified property, they are modelled as 0. -/
def headerBytes : List Nat := List.replicate BLOCKHEADER_SIZE 0

/-- The block obtained by absorbing follower c into block b:
block->size += BLOCKHEADER_SIZE + BLOCK_SIZE(next) (size_t addition). -/
def mergeBlocks (b c : BlockHeader) : BlockHeader :=
  { addr := b.addr
    size := (b.size + (BLOCKHEADER_SIZE + BLOCK_SIZE c)) % UINTPTR_CARD
    data := b.data ++ (headerBytes ++ c.data) }

/-- joinBlockWithFollower from malloc.c lines 103-117: if the next block
exists, is free and starts exactly at BLOCK_END(block), absorb it and fix
the links (list removal); returns the new BLOCK_SIZE of the block. -/
def joinBlockWithFollower : List BlockHeader → Nat → List BlockHeader × Nat
  | [], _ => ([], 0)
  | b :: rest, a =>
    if b.addr = a then
      match rest with
      | [] => ([b], BLOCK_SIZE b)
      | c :: rest2 =>
        if BLOCK_IN_USE c ∨ BLOCK_END b ≠ c.addr then (b :: c :: rest2, BLOCK_SIZE b)
        else (mergeBlocks b c :: rest2, BLOCK_SIZE (mergeBlocks b c))
    else
      let p := joinBlockWithFollower rest a
      (b :: p.1, p.2)

/-- The truncation step of resizeBlock (malloc.c lines 152-162): shrink the
block at address a to alignedSize keeping its in-use bit, and materialize a
new free block at its BLOCK_END carrying the remainder. -/
def splitBlockAt : List BlockHeader → Nat → Nat → List BlockHeader
  | [], _, _ => []
  | b :: rest, a, alignedSize =>
    if b.addr = a then
      { addr := b.addr
        size := NEW_SIZE (inUseBit b) alignedSize
        data := b.data.take alignedSize } ::
      { addr := b.addr + BLOCKHEADER_SIZE + alignedSize
        size := BLOCK_SIZE b - BLOCKHEADER_SIZE - alignedSize
        data := b.data.drop (alignedSize + BLOCKHEADER_SIZE) } :: rest
    else b :: splitBlockAt rest a alignedSize

/-- resizeBlock from malloc.c lines 122-165: speculatively join with the
follower; fail (0) if still below the aligned target; keep the enlarged
block if a split would leave less than a header plus HEAP_ALIGNMENT;
otherwise shrink back to the aligned target and emit the remainder as a
new free block. The speculative join is NOT undone on failure. -/
def resizeBlock (h : Heap) (a : Nat) (minSize : Nat) : Heap × Nat :=
  let alignedSize := ALIGN_SIZE minSize
  let j := joinBlockWithFollower h.blocks a
  if j.2 < alignedSize then ({ h with blocks := j.1 }, 0)
  else if j.2 < alignedSize + BLOCKHEADER_SIZE + HEAP_ALIGNMENT then
    ({ h with blocks := j.1 }, j.2)
  else
    ({ h with blocks := splitBlockAt j.1 a alignedSize }, alignedSize % IN_USE_MASK)

/-- findFreeBlock from malloc.c lines 84-95: first free block of the chain
with BLOCK_SIZE at least minSize. -/
def findFreeBlock : List BlockHeader → Nat → Option Nat
  | [], _ => none
  | b :: rest, minSize =>
    if BLOCK_FREE b ∧ minSize ≤ BLOCK_SIZE b then some b.addr
    else findFreeBlock rest minSize

/-- Extend the last block of the chain by grow bytes (sbrk memory is fresh
zeroed pages), lastBlock->size += minSize + BLOCKHEADER_SIZE. -/
def extendLast (bs : List BlockHeader) (grow : Nat) : List BlockHeader :=
  match bs.getLast? with
  | none => bs
  | some lastB =>
      bs.dropLast ++
        [{ lastB with
            size := (lastB.size + grow) % UINTPTR_CARD
            data := lastB.data ++ List.replicate grow 0 }]

/-- increaseHeap from malloc.c lines 38-75. Uninitialized heap: sbrk exactly
HEAP_INITIAL_SIZE bytes but record a single free block of size - header
bytes where size is minSize + header, doubled when that exceeds
HEAP_INITIAL_SIZE (this is the literal behaviour of the code). Initialized
heap: sbrk minSize + header more bytes; extend the last block when it is
free and contiguous with the new memory, else link a new free block.
The sbrkOk flag tells whether the sbrk call succeeds ((void*)-1 check). -/
def increaseHeap (h : Heap) (minSize : Nat) (sbrkOk : Bool) : Heap × Option Nat :=
  match h.blocks.getLast? with
  | none =>
    let size0 := (minSize + BLOCKHEADER_SIZE) % UINTPTR_CARD
    let size := if HEAP_INITIAL_SIZE < size0 then (size0 * 2) % UINTPTR_CARD
                else HEAP_INITIAL_SIZE
    if sbrkOk then
      let payloadSize := (size + (UINTPTR_CARD - BLOCKHEADER_SIZE)) % UINTPTR_CARD
      ({ blocks := [{ addr := h.brk
                      size := payloadSize
                      data := List.replicate (payloadSize % IN_USE_MASK) 0 }]
         brk := h.brk + HEAP_INITIAL_SIZE }, some h.brk)
    else (h, none)
  | some lastBlock =>
    if sbrkOk then
      let newAddr := h.brk
      let grow := (minSize + BLOCKHEADER_SIZE) % UINTPTR_CARD
      if BLOCK_END lastBlock = newAddr ∧ BLOCK_FREE lastBlock then
        ({ blocks := extendLast h.blocks grow, brk := h.brk + grow },
         some lastBlock.addr)
      else
        ({ blocks := h.blocks ++
             [{ addr := newAddr
                size := minSize
                data := List.replicate (minSize % IN_USE_MASK) 0 }]
           brk := h.brk + grow }, some newAddr)
    else (h, none)

/-- Set the in-use bit of the block at address a,
block->size |= IN_USE_MASK. -/
def setInUseAt : List BlockHeader → Nat → List BlockHeader
  | [], _ => []
  | b :: rest, a =>
    if b.addr = a then { b with size := orInUse b.size } :: rest
    else b :: setInUseAt rest a

/-- getBlock from malloc.c lines 176-191: align, search, grow on failure,
shrink to fit, mark in use. -/
def getBlock (h : Heap) (minSize : Nat) (sbrkOk : Bool) : Heap × Option Nat :=
  let alignedSize := ALIGN_SIZE minSize
  match findFreeBlock h.blocks alignedSize with
  | some a =>
    let r := resizeBlock h a alignedSize
    ({ r.1 with blocks := setInUseAt r.1.blocks a }, some a)
  | none =>
    match increaseHeap h alignedSize sbrkOk with
    | (h1, none) => (h1, none)
    | (h1, some a) =>
      let r := resizeBlock h1 a alignedSize
      ({ r.1 with blocks := setInUseAt r.1.blocks a }, some a)

/-- Clear the in-use bit of the block at address a,
block->size &= SIZE_MASK. -/
def markFreeAt : List BlockHeader → Nat → List BlockHeader
  | [], _ => []
  | b :: rest, a =>
    if b.addr = a then { b with size := b.size % IN_USE_MASK } :: rest
    else b :: markFreeAt rest a

/-- Address of the block whose next pointer refers to the block at address
a (block->previous), or none when that block heads the chain or is absent. -/
def prevAddr : List BlockHeader → Nat → Option Nat
  | [], _ => none
  | [_], _ => none
  | b :: c :: rest, a =>
    if b.addr = a then none
    else if c.addr = a then some b.addr
    else prevAddr (c :: rest) a

/-- First block of the chain carrying header address a. -/
def lookupBlock (bs : List BlockHeader) (a : Nat) : Option BlockHeader :=
  bs.find? (fun b => b.addr == a)

/-- freeBlock from malloc.c lines 198-207: clear the in-use bit, join with
the follower, then, unless the block heads the chain, join the previous
block with it when that one is free. (The C code also re-points the global
heap pointer at the block when previous is NULL, which leaves the chain
itself unchanged.) -/
def freeBlock (h : Heap) (a : Nat) : Heap :=
  let bs1 := markFreeAt h.blocks a
  let bs2 := (joinBlockWithFollower bs1 a).1
  match prevAddr bs2 a with
  | none => { h with blocks := bs2 }
  | some pa =>
    match lookupBlock bs2 pa with
    | some pb =>
      if BLOCK_FREE pb then { h with blocks := (joinBlockWithFollower bs2 pa).1 }
      else { h with blocks := bs2 }
    | none => { h with blocks := bs2 }

/-- my_malloc from malloc.c lines 214-223; the returned pointer is
block->block, the address right after the header. -/
def my_malloc (h : Heap) (size : Nat) (sbrkOk : Bool) : Heap × Option Nat :=
  if size = 0 then (h, none)
  else
    match getBlock h size sbrkOk with
    | (h1, none) => (h1, none)
    | (h1, some a) => (h1, some (a + BLOCKHEADER_SIZE))

/-- Overwrite the whole payload of the block at address a with zeros; this
is what the word loop of my_calloc performs when HEAP_ALIGNMENT divides
BLOCK_SIZE. callocZeroExtent gives the exact number of bytes the loop
writes in general. -/
def zeroFillAt : List BlockHeader → Nat → List BlockHeader
  | [], _ => []
  | b :: rest, a =>
    if b.addr = a then { b with data := List.replicate (BLOCK_SIZE b) 0 } :: rest
    else b :: zeroFillAt rest a

/-- Number of bytes written by the zeroing loop of my_calloc on a block of
payload size bytes: full words of HEAP_ALIGNMENT bytes, starting at the
payload, while the write position is below BLOCK_END. -/
def callocZeroExtent (size : Nat) : Nat :=
  HEAP_ALIGNMENT * ((size + (HEAP_ALIGNMENT - 1)) / HEAP_ALIGNMENT)

/-- my_calloc from malloc.c lines 225-239: size_t product (wrapping, no
overflow guard), reject 0, allocate, zero the whole payload. -/
def my_calloc (h : Heap) (num size : Nat) (sbrkOk : Bool) : Heap × Option Nat :=
  let totalSize := (num * size) % UINTPTR_CARD
  if totalSize = 0 then (h, none)
  else
    match getBlock h totalSize sbrkOk with
    | (h1, none) => (h1, none)
    | (h1, some a) =>
      ({ h1 with blocks := zeroFillAt h1.blocks a }, some (a + BLOCKHEADER_SIZE))

/-- memcpy(newBlock->block, block->block, n): overwrite the first
bytes.length payload bytes of the block at address a. -/
def copyInto : List BlockHeader → Nat → List Nat → List BlockHeader
  | [], _, _ => []
  | b :: rest, a, bytes =>
    if b.addr = a then { b with data := bytes ++ b.data.drop bytes.length } :: rest
    else b :: copyInto rest a bytes

/-- my_free from malloc.c lines 274-278. -/
def my_free (h : Heap) (ptr : Option Nat) : Heap :=
  match ptr with
  | none => h
  | some p => freeBlock h (p - BLOCKHEADER_SIZE)

/-- my_realloc from malloc.c lines 241-272: NULL behaves as malloc; size 0
frees and returns NULL; otherwise try resizeBlock in place, and on failure
allocate a fresh block, copy BLOCK_SIZE(block) bytes of the old payload
(its size as left by the failed in-place attempt), free the old block and
return the new pointer; when the fresh allocation fails return NULL with
the old block left allocated. -/
def my_realloc (h : Heap) (ptr : Option Nat) (size : Nat) (sbrkOk : Bool) :
    Heap × Option Nat :=
  match ptr with
  | none => my_malloc h size sbrkOk
  | some p =>
    if size = 0 then (my_free h (some p), none)
    else
      let a := p - BLOCKHEADER_SIZE
      let r := resizeBlock h a size
      if 0 < r.2 then (r.1, some p)
      else
        match getBlock r.1 size sbrkOk with
        | (h2, none) => (h2, none)
        | (h2, some na) =>
          let oldBytes :=
            match lookupBlock h2.blocks a with
            | some b => b.data.take (BLOCK_SIZE b)
            | none => []
          let h3 := { h2 with blocks := copyInto h2.blocks na oldBytes }
          (freeBlock h3 a, some (na + BLOCKHEADER_SIZE))

/-! Basic arithmetic facts about the packed size field. -/

/-- Footprint of a block inside the arena: header plus payload. -/
def footprint (b : BlockHeader) : Nat := BLOCKHEADER_SIZE + BLOCK_SIZE b

/-- Total number of arena bytes spanned by a chain. -/
def footSum (bs : List BlockHeader) : Nat := (bs.map footprint).sum

theorem card_eq_two_mul_mask : UINTPTR_CARD = 2 * IN_USE_MASK := by decide

theorem size_decomp (b : BlockHeader) :
    b.size = inUseBit b * IN_USE_MASK + BLOCK_SIZE b := by
  rw [BLOCK_SIZE, inUseBit, Nat.mul_comm]
  exact (Nat.div_add_mod _ _).symm

theorem inUseBit_le_one {b : BlockHeader} (h : b.size < UINTPTR_CARD) :
    inUseBit b ≤ 1 := by
  rw [inUseBit]
  have h2 : b.size / IN_USE_MASK < 2 :=
    (Nat.div_lt_iff_lt_mul (by decide)).mpr
      (by rw [← card_eq_two_mul_mask]; exact h)
  omega

theorem masked_le_size {b : BlockHeader} (h : b.size < UINTPTR_CARD) :
    b.size ≤ IN_USE_MASK + BLOCK_SIZE b := by
  have hd := size_decomp b
  have h1 := inUseBit_le_one h
  have h2 : inUseBit b * IN_USE_MASK ≤ 1 * IN_USE_MASK :=
    Nat.mul_le_mul_right _ h1
  omega

theorem BLOCK_SIZE_lt (b : BlockHeader) : BLOCK_SIZE b < IN_USE_MASK :=
  Nat.mod_lt _ (by decide)

theorem free_of_size_lt {b : BlockHeader} (h : b.size < IN_USE_MASK) :
    BLOCK_FREE b = true := by
  simp [BLOCK_FREE, BLOCK_IN_USE, inUseBit, Nat.div_eq_of_lt h]

theorem BLOCK_SIZE_of_size_lt {b : BlockHeader} (h : b.size < IN_USE_MASK) :
    BLOCK_SIZE b = b.size :=
  Nat.mod_eq_of_lt h

theorem inUseBit_eq_one {b : BlockHeader} (h64 : b.size < UINTPTR_CARD)
    (h : IN_USE_MASK ≤ b.size) : inUseBit b = 1 := by
  have h1 := inUseBit_le_one h64
  have h2 : 1 ≤ inUseBit b := by
    rw [inUseBit]
    exact (Nat.one_le_div_iff (by decide)).mpr h
  omega

/-- Absorbing a follower: exact size bookkeeping when no wrap occurs. -/
theorem mergeBlocks_spec {b c : BlockHeader} (h64 : b.size < UINTPTR_CARD)
    (hsum : BLOCK_SIZE b + (BLOCKHEADER_SIZE + BLOCK_SIZE c) < IN_USE_MASK) :
    (mergeBlocks b c).addr = b.addr ∧
    (mergeBlocks b c).size < UINTPTR_CARD ∧
    BLOCK_SIZE (mergeBlocks b c) = BLOCK_SIZE b + BLOCKHEADER_SIZE + BLOCK_SIZE c ∧
    inUseBit (mergeBlocks b c) = inUseBit b ∧
    (mergeBlocks b c).data = b.data ++ (headerBytes ++ c.data) := by
  have hd := size_decomp b
  have hb1 := inUseBit_le_one h64
  have hle := masked_le_size h64
  have hcard := card_eq_two_mul_mask
  have hmod : (b.size + (BLOCKHEADER_SIZE + BLOCK_SIZE c)) % UINTPTR_CARD
      = b.size + (BLOCKHEADER_SIZE + BLOCK_SIZE c) := by
    apply Nat.mod_eq_of_lt
    omega
  refine ⟨rfl, ?_, ?_, ?_, rfl⟩
  · show (b.size + (BLOCKHEADER_SIZE + BLOCK_SIZE c)) % UINTPTR_CARD < UINTPTR_CARD
    exact Nat.mod_lt _ (by decide)
  · show (b.size + (BLOCKHEADER_SIZE + BLOCK_SIZE c)) % UINTPTR_CARD % IN_USE_MASK
        = BLOCK_SIZE b + BLOCKHEADER_SIZE + BLOCK_SIZE c
    rw [hmod]
    rcases Nat.le_one_iff_eq_zero_or_eq_one.mp hb1 with h0 | h1
    · rw [h0] at hd
      have : b.size + (BLOCKHEADER_SIZE + BLOCK_SIZE c)
          = BLOCK_SIZE b + BLOCKHEADER_SIZE + BLOCK_SIZE c := by omega
      rw [this]
      exact Nat.mod_eq_of_lt (by omega)
    · rw [h1] at hd
      have : b.size + (BLOCKHEADER_SIZE + BLOCK_SIZE c)
          = IN_USE_MASK + (BLOCK_SIZE b + BLOCKHEADER_SIZE + BLOCK_SIZE c) := by omega
      rw [this, Nat.add_mod_left]
      exact Nat.mod_eq_of_lt (by omega)
  · show (b.size + (BLOCKHEADER_SIZE + BLOCK_SIZE c)) % UINTPTR_CARD / IN_USE_MASK
        = inUseBit b
    rw [hmod]
    rcases Nat.le_one_iff_eq_zero_or_eq_one.mp hb1 with h0 | h1
    · rw [h0] at hd ⊢
      exact Nat.div_eq_of_lt (by omega)
    · rw [h1] at hd ⊢
      have : b.size + (BLOCKHEADER_SIZE + BLOCK_SIZE c)
          = IN_USE_MASK * 1 + (BLOCK_SIZE b + BLOCKHEADER_SIZE + BLOCK_SIZE c) := by
        omega
      rw [this, Nat.mul_add_div (by decide), Nat.div_eq_of_lt (by omega)]

theorem footSum_append (xs ys : List BlockHeader) :
    footSum (xs ++ ys) = footSum xs + footSum ys := by
  simp [footSum]

theorem footSum_cons (x : BlockHeader) (xs : List BlockHeader) :
    footSum (x :: xs) = footprint x + footSum xs := by
  simp [footSum]

theorem footSum_nil : footSum [] = 0 := rfl

/-! Decomposition lemmas: each chain operation acts on the first block
carrying the given address and leaves the prefix before it untouched. -/

theorem joinBWF_last (pre : List BlockHeader) (b : BlockHeader) (a : Nat)
    (hpre : ∀ x ∈ pre, x.addr ≠ a) (hb : b.addr = a) :
    joinBlockWithFollower (pre ++ [b]) a = (pre ++ [b], BLOCK_SIZE b) := by
  induction pre with
  | nil => simp [joinBlockWithFollower, hb]
  | cons x pre ih =>
    have hx : x.addr ≠ a := hpre x (by simp)
    have ih2 := ih (fun y hy => hpre y (by simp [hy]))
    simp [joinBlockWithFollower, hx, ih2]

theorem joinBWF_noJoin (pre : List BlockHeader) (b c : BlockHeader)
    (post : List BlockHeader) (a : Nat)
    (hpre : ∀ x ∈ pre, x.addr ≠ a) (hb : b.addr = a)
    (hg : BLOCK_IN_USE c = true ∨ BLOCK_END b ≠ c.addr) :
    joinBlockWithFollower (pre ++ b :: c :: post) a
      = (pre ++ b :: c :: post, BLOCK_SIZE b) := by
  induction pre with
  | nil => simp [joinBlockWithFollower, hb, hg]
  | cons x pre ih =>
    have hx : x.addr ≠ a := hpre x (by simp)
    have ih2 := ih (fun y hy => hpre y (by simp [hy]))
    simp [joinBlockWithFollower, hx, ih2]

theorem joinBWF_join (pre : List BlockHeader) (b c : BlockHeader)
    (post : List BlockHeader) (a : Nat)
    (hpre : ∀ x ∈ pre, x.addr ≠ a) (hb : b.addr = a)
    (hc : BLOCK_IN_USE c = false) (he : BLOCK_END b = c.addr) :
    joinBlockWithFollower (pre ++ b :: c :: post) a
      = (pre ++ mergeBlocks b c :: post, BLOCK_SIZE (mergeBlocks b c)) := by
  induction pre with
  | nil => simp [joinBlockWithFollower, hb, hc, he]
  | cons x pre ih =>
    have hx : x.addr ≠ a := hpre x (by simp)
    have ih2 := ih (fun y hy => hpre y (by simp [hy]))
    simp [joinBlockWithFollower, hx, ih2]

theorem markFreeAt_decomp (pre : List BlockHeader) (b : BlockHeader)
    (post : List BlockHeader) (a : Nat)
    (hpre : ∀ x ∈ pre, x.addr ≠ a) (hb : b.addr = a) :
    markFreeAt (pre ++ b :: post) a
      = pre ++ { b with size := b.size % IN_USE_MASK } :: post := by
  induction pre with
  | nil => simp [markFreeAt, hb]
  | cons x pre ih =>
    have hx : x.addr ≠ a := hpre x (by simp)
    have ih2 := ih (fun y hy => hpre y (by simp [hy]))
    simp [markFreeAt, hx, ih2]

theorem setInUseAt_decomp (pre : List BlockHeader) (b : BlockHeader)
    (post : List BlockHeader) (a : Nat)
    (hpre : ∀ x ∈ pre, x.addr ≠ a) (hb : b.addr = a) :
    setInUseAt (pre ++ b :: post) a
      = pre ++ { b with size := orInUse b.size } :: post := by
  induction pre with
  | nil => simp [setInUseAt, hb]
  | cons x pre ih =>
    have hx : x.addr ≠ a := hpre x (by simp)
    have ih2 := ih (fun y hy => hpre y (by simp [hy]))
    simp [setInUseAt, hx, ih2]

theorem zeroFillAt_decomp (pre : List BlockHeader) (b : BlockHeader)
    (post : List BlockHeader) (a : Nat)
    (hpre : ∀ x ∈ pre, x.addr ≠ a) (hb : b.addr = a) :
    zeroFillAt (pre ++ b :: post) a
      = pre ++ { b with data := List.replicate (BLOCK_SIZE b) 0 } :: post := by
  induction pre with
  | nil => simp [zeroFillAt, hb]
  | cons x pre ih =>
    have hx : x.addr ≠ a := hpre x (by simp)
    have ih2 := ih (fun y hy => hpre y (by simp [hy]))
    simp [zeroFillAt, hx, ih2]

theorem copyInto_decomp (pre : List BlockHeader) (b : BlockHeader)
    (post : List BlockHeader) (a : Nat) (bytes : List Nat)
    (hpre : ∀ x ∈ pre, x.addr ≠ a) (hb : b.addr = a) :
    copyInto (pre ++ b :: post) a bytes
      = pre ++ { b with data := bytes ++ b.data.drop bytes.length } :: post := by
  induction pre with
  | nil => simp [copyInto, hb]
  | cons x pre ih =>
    have hx : x.addr ≠ a := hpre x (by simp)
    have ih2 := ih (fun y hy => hpre y (by simp [hy]))
    simp [copyInto, hx, ih2]

theorem splitBlockAt_decomp (pre : List BlockHeader) (b : BlockHeader)
    (post : List BlockHeader) (a t : Nat)
    (hpre : ∀ x ∈ pre, x.addr ≠ a) (hb : b.addr = a) :
    splitBlockAt (pre ++ b :: post) a t
      = pre ++
        { addr := b.addr, size := NEW_SIZE (inUseBit b) t, data := b.data.take t } ::
        { addr := b.addr + BLOCKHEADER_SIZE + t,
          size := BLOCK_SIZE b - BLOCKHEADER_SIZE - t,
          data := b.data.drop (t + BLOCKHEADER_SIZE) } :: post := by
  induction pre with
  | nil => simp [splitBlockAt, hb]
  | cons x pre ih =>
    have hx : x.addr ≠ a := hpre x (by simp)
    have ih2 := ih (fun y hy => hpre y (by simp [hy]))
    simp [splitBlockAt, hx, ih2]

theorem lookupBlock_decomp (pre : List BlockHeader) (b : BlockHeader)
    (post : List BlockHeader) (a : Nat)
    (hpre : ∀ x ∈ pre, x.addr ≠ a) (hb : b.addr = a) :
    lookupBlock (pre ++ b :: post) a = some b := by
  induction pre with
  | nil => simp [lookupBlock, List.find?_cons_of_pos, hb]
  | cons x pre ih =>
    have hx : x.addr ≠ a := hpre x (by simp)
    have ih2 := ih (fun y hy => hpre y (by simp [hy]))
    simpa [lookupBlock, List.find?_cons_of_neg, hx] using ih2

theorem prevAddr_head (b : BlockHeader) (post : List BlockHeader) (a : Nat)
    (hb : b.addr = a) : prevAddr (b :: post) a = none := by
  cases post with
  | nil => simp [prevAddr]
  | cons c post => simp [prevAddr, hb]

theorem prevAddr_decomp (pre : List BlockHeader) (pb b : BlockHeader)
    (post : List BlockHeader) (a : Nat)
    (hpre : ∀ x ∈ pre, x.addr ≠ a) (hpb : pb.addr ≠ a) (hb : b.addr = a) :
    prevAddr (pre ++ pb :: b :: post) a = some pb.addr := by
  induction pre with
  | nil => simp [prevAddr, hpb, hb]
  | cons x pre ih =>
    have hx : x.addr ≠ a := hpre x (by simp)
    have ih2 := ih (fun y hy => hpre y (by simp [hy]))
    cases pre with
    | nil => simp_all [prevAddr]
    | cons y pre =>
      have hy : y.addr ≠ a := hpre y (by simp)
      simpa [prevAddr, hx, hy] using ih2

theorem free_iff_bit {x : BlockHeader} : BLOCK_FREE x = true ↔ inUseBit x ≠ 1 := by
  simp [BLOCK_FREE, BLOCK_IN_USE]

theorem NEW_SIZE_mod (i t : Nat) (ht : t < IN_USE_MASK) :
    NEW_SIZE i t % IN_USE_MASK = t := by
  rw [NEW_SIZE, if_pos ht, Nat.add_mul_mod_self_right, Nat.mod_eq_of_lt ht]

theorem NEW_SIZE_div (i t : Nat) (ht : t < IN_USE_MASK) :
    NEW_SIZE i t / IN_USE_MASK = i := by
  rw [NEW_SIZE, if_pos ht, Nat.add_mul_div_right _ _ (by decide),
    Nat.div_eq_of_lt ht, Nat.zero_add]

theorem NEW_SIZE_lt (i t : Nat) (hi : i ≤ 1) (ht : t < IN_USE_MASK) :
    NEW_SIZE i t < UINTPTR_CARD := by
  rw [NEW_SIZE, if_pos ht]
  have h2 : i * IN_USE_MASK ≤ 1 * IN_USE_MASK := Nat.mul_le_mul_right _ hi
  have hcard := card_eq_two_mul_mask
  omega

theorem ALIGN_SIZE_of_aligned {t : Nat} (ht : t % HEAP_ALIGNMENT = 0) :
    ALIGN_SIZE t = t := by
  rw [ALIGN_SIZE, if_pos ht]

/-- Combined outcome of joinBlockWithFollower at the first block with the
given address: either nothing changes, or that block absorbs its free
contiguous follower; in both cases the block keeps its address, its in-use
bit, at least its size, and its payload bytes as a prefix, and the chain
keeps its total footprint. -/
theorem joinBWF_outcome (pre : List BlockHeader) (b : BlockHeader)
    (post : List BlockHeader) (a : Nat)
    (hpre : ∀ x ∈ pre, x.addr ≠ a) (hb : b.addr = a)
    (h64 : b.size < UINTPTR_CARD)
    (hlenb : b.data.length = BLOCK_SIZE b)
    (hsum : ∀ c ∈ post.head?, BLOCK_SIZE b + (BLOCKHEADER_SIZE + BLOCK_SIZE c) < IN_USE_MASK)
    (hlenc : ∀ c ∈ post.head?, c.data.length = BLOCK_SIZE c) :
    ∃ w tail,
      (joinBlockWithFollower (pre ++ b :: post) a).1 = pre ++ w :: tail ∧
      (joinBlockWithFollower (pre ++ b :: post) a).2 = BLOCK_SIZE w ∧
      w.addr = a ∧ inUseBit w = inUseBit b ∧ w.size < UINTPTR_CARD ∧
      BLOCK_SIZE b ≤ BLOCK_SIZE w ∧
      b.data <+: w.data ∧
      w.data.length = BLOCK_SIZE w ∧
      footSum (pre ++ w :: tail) = footSum (pre ++ b :: post) ∧
      ((w = b ∧ tail = post) ∨
        (∃ c post2, post = c :: post2 ∧ tail = post2 ∧ BLOCK_FREE c = true ∧
          BLOCK_END w = BLOCK_END c ∧ footprint w = footprint b + footprint c)) := by
  cases post with
  | nil =>
    refine ⟨b, [], ?_, ?_, hb, rfl, h64, le_rfl, List.prefix_rfl, hlenb, rfl,
      Or.inl ⟨rfl, rfl⟩⟩
    · rw [joinBWF_last pre b a hpre hb]
    · rw [joinBWF_last pre b a hpre hb]
  | cons c post2 =>
    by_cases hg : BLOCK_IN_USE c = true ∨ BLOCK_END b ≠ c.addr
    · refine ⟨b, c :: post2, ?_, ?_, hb, rfl, h64, le_rfl, List.prefix_rfl, hlenb, rfl,
        Or.inl ⟨rfl, rfl⟩⟩
      · rw [joinBWF_noJoin pre b c post2 a hpre hb hg]
      · rw [joinBWF_noJoin pre b c post2 a hpre hb hg]
    · push_neg at hg
      obtain ⟨hc, he⟩ := hg
      have hc2 : BLOCK_IN_USE c = false := by
        cases hx : BLOCK_IN_USE c with
        | false => rfl
        | true => exact absurd hx hc
      have hj := joinBWF_join pre b c post2 a hpre hb hc2 he
      have hsum2 := hsum c (by simp)
      have hlenc2 := hlenc c (by simp)
      obtain ⟨haddr, h64m, hszm, hbitm, hdatam⟩ := mergeBlocks_spec h64 hsum2
      have hfootm : footprint (mergeBlocks b c) = footprint b + footprint c := by
        rw [footprint, footprint, footprint, hszm]
        omega
      refine ⟨mergeBlocks b c, post2, ?_, ?_, haddr.trans hb, hbitm, h64m, ?_, ?_, ?_, ?_,
        Or.inr ⟨c, post2, rfl, rfl, ?_, ?_, hfootm⟩⟩
      · rw [hj]
      · rw [hj]
      · rw [hszm]; omega
      · rw [hdatam]; exact ⟨headerBytes ++ c.data, rfl⟩
      · rw [hdatam, hszm]
        simp [headerBytes, hlenb, hlenc2, BLOCKHEADER_SIZE]
        omega
      · rw [footSum_append, footSum_append, footSum_cons, footSum_cons, footSum_cons]
        omega
      · rw [BLOCK_FREE, hc2]
        rfl
      · rw [BLOCK_END, BLOCK_END, hszm, haddr, ← he, BLOCK_END]
        omega

/-! Claim theorems. -/

/-- Claim C10 (confirmed): whenever the size_t product num * size reduces to
0 mod 2^64 -- including num == 0, size == 0 and true products that are
nonzero multiples of 2^64 -- my_calloc returns NULL at once, with the heap
untouched. -/
theorem calloc_returns_null_on_zero_product (h : Heap) (num size : Nat)
    (sbrkOk : Bool) (hz : (num * size) % UINTPTR_CARD = 0) :
    my_calloc h num size sbrkOk = (h, none) := by
  simp [my_calloc, hz]

/-- Witness for C10 at num = 2^32, size = 2^32 (true product 2^64, a nonzero
multiple of 2^64 that wraps to 0). -/
theorem calloc_returns_null_on_zero_product_witness :
    my_calloc { blocks := [], brk := 4096 } (2 ^ 32) (2 ^ 32) true
      = ({ blocks := [], brk := 4096 }, none) :=
  calloc_returns_null_on_zero_product _ _ _ _ (by decide)

/-- An initialized one-block arena (a single in-use block spanning the whole
initial region) used to refute claim C2. -/
def c2Heap : Heap :=
  { blocks := [{ addr := 4096
                 size := 2 ^ 63 + (HEAP_INITIAL_SIZE - BLOCKHEADER_SIZE)
                 data := List.replicate (HEAP_INITIAL_SIZE - BLOCKHEADER_SIZE) 0 }]
    brk := 4096 + HEAP_INITIAL_SIZE }

/-- Counterexample to claim C2: growing the initialized arena c2Heap for a
request of 8 bytes moves the program break by exactly 8 + BLOCKHEADER_SIZE
= 32 bytes, not by max(current total size * HEAP_GROW_FACTOR, aligned
request) = 2097152 bytes as the claim states. -/
theorem increaseHeap_growth_cex :
    (increaseHeap c2Heap 8 true).1.brk - c2Heap.brk = 32 ∧
    32 ≠ max ((c2Heap.brk - 4096) * HEAP_GROW_FACTOR) (ALIGN_SIZE 8) := by
  constructor
  · decide
  · decide

/-- Claim C2 (amended): on an already-initialized arena, increaseHeap always
requests exactly minSize + BLOCKHEADER_SIZE additional bytes from the
operating environment (size_t sum); HEAP_GROW_FACTOR and the current arena
size play no role in the amount. -/
theorem increaseHeap_growth_amount (h : Heap) (minSize : Nat)
    (hne : h.blocks ≠ []) :
    (increaseHeap h minSize true).1.brk
      = h.brk + (minSize + BLOCKHEADER_SIZE) % UINTPTR_CARD := by
  cases hlast : h.blocks.getLast? with
  | none => exact absurd (List.getLast?_eq_none_iff.mp hlast) hne
  | some lastBlock =>
    rw [increaseHeap]
    simp only [hlast, if_true]
    split <;> rfl

/-- Witness for the amended claim C2 on the concrete heap c2Heap. -/
theorem increaseHeap_growth_amount_witness :
    (increaseHeap c2Heap 8 true).1.brk
      = c2Heap.brk + (8 + BLOCKHEADER_SIZE) % UINTPTR_CARD :=
  increaseHeap_growth_amount c2Heap 8 (by decide)

/-- Claim C4 (code bug evidence): the first growth for an aligned request of
1048568 bytes claims exactly HEAP_INITIAL_SIZE bytes from the operating
environment (the break moves by 1048576) yet records one free block of
payload size 2097160, which is not HEAP_INITIAL_SIZE - BLOCKHEADER_SIZE =
1048552, and whose end lies beyond the claimed region. -/
theorem increaseHeap_first_growth_bug :
    (increaseHeap { blocks := [], brk := 4096 } 1048568 true).1.brk
        = 4096 + HEAP_INITIAL_SIZE ∧
    ((increaseHeap { blocks := [], brk := 4096 } 1048568 true).1.blocks.map
        fun b => (b.addr, BLOCK_SIZE b, BLOCK_FREE b)) = [(4096, 2097160, true)] ∧
    2097160 ≠ HEAP_INITIAL_SIZE - BLOCKHEADER_SIZE ∧
    ¬ 4096 + BLOCKHEADER_SIZE + 2097160 ≤
        (increaseHeap { blocks := [], brk := 4096 } 1048568 true).1.brk := by
  refine ⟨by decide, by decide, by decide, by decide⟩

/-- Final state of the three-step scenario refuting claim C5:
my_malloc 1048561, my_malloc 2000000, my_free of the second pointer,
starting from the empty heap with every sbrk call succeeding. -/
def c5Final : Heap :=
  let h0 : Heap := { blocks := [], brk := 4096 }
  let s1 := my_malloc h0 1048561 true
  let s2 := my_malloc s1.1 2000000 true
  my_free s2.1 s2.2

/-- Claim C5 (code bug evidence): after the release that ends the scenario
of c5Final, the chain holds the blocks (4096, in use), (1052688, free) and
(1052672, free): the two free blocks are consecutive in address order
(no block lies at an address between 1052672 and 1052688) and adjacent in
the chain, so invariant I2 is violated after a release. The root cause is
the first-growth slip recorded for claim C4. -/
theorem free_leaves_two_adjacent_free_blocks :
    (c5Final.blocks.map fun b => (b.addr, BLOCK_SIZE b, BLOCK_FREE b))
      = [(4096, 1048568, false), (1052688, 1048568, true), (1052672, 2000000, true)] ∧
    (c5Final.blocks.filter (fun b => BLOCK_FREE b)).length = 2 ∧
    (∀ b ∈ c5Final.blocks, ¬ (1052672 < b.addr ∧ b.addr < 1052688)) := by
  refine ⟨by decide, by decide, by decide⟩

/-- Claim C6 (code bug evidence): for num = 2^63 + 1 and size = 2 the true
product 2^64 + 2 overflows size_t; my_calloc silently wraps it to 2 and
allocates an 8-byte block, returning a non-null pointer instead of the
failure indicator. -/
theorem calloc_overflow_not_detected :
    (my_calloc { blocks := [], brk := 4096 } (2 ^ 63 + 1) 2 true).2 = some 4120 ∧
    (∃ b ∈ (my_calloc { blocks := [], brk := 4096 } (2 ^ 63 + 1) 2 true).1.blocks,
      b.addr = 4096 ∧ BLOCK_SIZE b = 8 ∧ BLOCK_IN_USE b = true) ∧
    ¬ (2 ^ 63 + 1) * 2 < UINTPTR_CARD := by
  refine ⟨by decide, by decide, by decide⟩

/-- A one-block heap (in-use block of payload 32 at 4096) used to refute
claim C7. -/
def c7Heap : Heap :=
  { blocks := [{ addr := 4096, size := 2 ^ 63 + 32, data := List.replicate 32 0 }]
    brk := 4096 + BLOCKHEADER_SIZE + 32 }

/-- Counterexample to claim C7: for the aligned target 8, strictly smaller
than the current size 32, the leftover 32 - 8 - BLOCKHEADER_SIZE = 0 is
non-negative, so the claim requires the block to be truncated and a new
free block materialized; the code leaves the block unsplit (resizeBlock
keeps the single block of size 32 and the heap unchanged) because the
leftover is below HEAP_ALIGNMENT. -/
theorem resizeBlock_zero_leftover_cex :
    (0 : Int) ≤ 32 - 8 - (BLOCKHEADER_SIZE : Int) ∧
    8 % HEAP_ALIGNMENT = 0 ∧ (8 : Nat) < 32 ∧
    resizeBlock c7Heap 4096 8 = (c7Heap, 32) ∧
    (resizeBlock c7Heap 4096 8).1.blocks.length = 1 := by
  refine ⟨by decide, by decide, by decide, by decide, by decide⟩

/-- Claim C7 (amended): given a block and an aligned target size strictly
smaller than its current size, with no joinable follower (so resizeBlock
performs exactly the split of spec section 4.3), the code truncates the
block to the target and materializes a new free block in the remainder if
and only if the leftover (current size - target - one header) is at least
HEAP_ALIGNMENT; with a smaller leftover (including exactly zero) the block
and the heap are left unchanged. -/
theorem resizeBlock_split_iff (h : Heap) (pre post : List BlockHeader)
    (b : BlockHeader) (a t : Nat)
    (hdec : h.blocks = pre ++ b :: post)
    (hpre : ∀ x ∈ pre, x.addr ≠ a) (hb : b.addr = a)
    (halign : t % HEAP_ALIGNMENT = 0)
    (hlt : t < BLOCK_SIZE b)
    (hnojoin : ∀ c ∈ post.head?, BLOCK_IN_USE c = true ∨ BLOCK_END b ≠ c.addr) :
    (BLOCK_SIZE b < t + BLOCKHEADER_SIZE + HEAP_ALIGNMENT →
      resizeBlock h a t = (h, BLOCK_SIZE b)) ∧
    (t + BLOCKHEADER_SIZE + HEAP_ALIGNMENT ≤ BLOCK_SIZE b →
      resizeBlock h a t =
        ({ h with blocks := pre ++
            { addr := a, size := NEW_SIZE (inUseBit b) t,
              data := b.data.take t } ::
            { addr := a + BLOCKHEADER_SIZE + t,
              size := BLOCK_SIZE b - BLOCKHEADER_SIZE - t,
              data := b.data.drop (t + BLOCKHEADER_SIZE) } :: post }, t) ∧
      BLOCK_FREE { addr := a + BLOCKHEADER_SIZE + t,
                   size := BLOCK_SIZE b - BLOCKHEADER_SIZE - t,
                   data := b.data.drop (t + BLOCKHEADER_SIZE) } = true ∧
      BLOCK_SIZE { addr := a, size := NEW_SIZE (inUseBit b) t,
                   data := b.data.take t } = t ∧
      inUseBit { addr := a, size := NEW_SIZE (inUseBit b) t,
                 data := b.data.take t } = inUseBit b) := by
  have halignt : ALIGN_SIZE t = t := ALIGN_SIZE_of_aligned halign
  have htM : t < IN_USE_MASK := lt_trans hlt (BLOCK_SIZE_lt b)
  have hj : joinBlockWithFollower h.blocks a = (h.blocks, BLOCK_SIZE b) := by
    cases post with
    | nil => rw [hdec]; exact joinBWF_last pre b a hpre hb
    | cons c post2 =>
      rw [hdec]; exact joinBWF_noJoin pre b c post2 a hpre hb (hnojoin c (by simp))
  have hnotlt : ¬ BLOCK_SIZE b < t := Nat.not_lt.mpr (Nat.le_of_lt hlt)
  constructor
  · intro hc
    rw [resizeBlock]
    simp only [halignt, hj, if_neg hnotlt, if_pos hc]
  · intro hc
    have hnotlt2 : ¬ BLOCK_SIZE b < t + BLOCKHEADER_SIZE + HEAP_ALIGNMENT :=
      Nat.not_lt.mpr hc
    have hsplit : splitBlockAt h.blocks a t = pre ++
        { addr := b.addr, size := NEW_SIZE (inUseBit b) t,
          data := b.data.take t } ::
        { addr := b.addr + BLOCKHEADER_SIZE + t,
          size := BLOCK_SIZE b - BLOCKHEADER_SIZE - t,
          data := b.data.drop (t + BLOCKHEADER_SIZE) } :: post := by
      rw [hdec]; exact splitBlockAt_decomp pre b post a t hpre hb
    refine ⟨?_, ?_, ?_, ?_⟩
    · rw [resizeBlock]
      simp only [halignt, hj, if_neg hnotlt, if_neg hnotlt2, hsplit, hb]
      rw [Nat.mod_eq_of_lt htM]
    · apply free_of_size_lt
      show BLOCK_SIZE b - BLOCKHEADER_SIZE - t < IN_USE_MASK
      have := BLOCK_SIZE_lt b
      omega
    · exact NEW_SIZE_mod _ _ htM
    · exact NEW_SIZE_div _ _ htM

/-- A one-block heap (in-use block of payload 64 at 4096) used to witness
the amended claim C7 on the splitting side. -/
def c7SplitHeap : Heap :=
  { blocks := [{ addr := 4096, size := 2 ^ 63 + 64, data := List.replicate 64 0 }]
    brk := 4096 + BLOCKHEADER_SIZE + 64 }

/-- Witness for the amended claim C7: for target 8 on a 64-byte in-use
block the leftover 32 is at least HEAP_ALIGNMENT and the code splits,
truncating the block to 8 and materializing a free 32-byte block. -/
theorem resizeBlock_split_iff_witness :
    8 + BLOCKHEADER_SIZE + HEAP_ALIGNMENT ≤ 64 ∧
    resizeBlock c7SplitHeap 4096 8 =
      ({ blocks :=
          [{ addr := 4096, size := NEW_SIZE 1 8, data := List.replicate 8 0 },
           { addr := 4128, size := 32, data := List.replicate 32 0 }]
         brk := 4096 + BLOCKHEADER_SIZE + 64 }, 8) := by
  have hmain := (resizeBlock_split_iff c7SplitHeap []
    [] { addr := 4096, size := 2 ^ 63 + 64, data := List.replicate 64 0 } 4096 8
    rfl (by simp) rfl (by decide) (by decide) (by simp)).2 (by decide)
  refine ⟨by decide, ?_⟩
  rw [hmain.1]
  decide

theorem free_imp_not_inuse {x : BlockHeader} (h : BLOCK_FREE x = true) :
    BLOCK_IN_USE x = false := by
  rw [BLOCK_FREE] at h
  simpa using h

/-- freeBlock always leaves a free block whose span covers the header
address of the released block: clearing the in-use bit, the forward join
and the conditional backward join never lose the released region. -/
theorem freeBlock_frees (h : Heap) (pre post : List BlockHeader)
    (b : BlockHeader) (a : Nat)
    (hdec : h.blocks = pre ++ b :: post)
    (hpre : ∀ x ∈ pre, x.addr ≠ a) (hb : b.addr = a)
    (hnodup : (pre.map fun x => x.addr).Nodup)
    (h64 : ∀ x ∈ h.blocks, x.size < UINTPTR_CARD)
    (hlen : ∀ x ∈ h.blocks, x.data.length = BLOCK_SIZE x)
    (hfoot : footSum h.blocks < 2 ^ 62) :
    ∃ w ∈ (freeBlock h a).blocks,
      BLOCK_FREE w = true ∧ w.addr ≤ a ∧ a < BLOCK_END w := by
  have hMlarge : (2 : Nat) ^ 62 ≤ IN_USE_MASK := by decide
  -- the block with the in-use bit cleared
  have hbmem : b ∈ h.blocks := by
    rw [hdec]; exact List.mem_append_right _ (List.mem_cons_self _ _)
  set b0 : BlockHeader := { b with size := b.size % IN_USE_MASK } with hb0def
  have hm : markFreeAt h.blocks a = pre ++ b0 :: post := by
    rw [hdec]; exact markFreeAt_decomp pre b post a hpre hb
  have hb0lt : b0.size < IN_USE_MASK := Nat.mod_lt _ (by decide)
  have hb0sz : BLOCK_SIZE b0 = BLOCK_SIZE b := Nat.mod_eq_of_lt hb0lt
  have hfoot2 : footSum (pre ++ b0 :: post) = footSum h.blocks := by
    rw [hdec, footSum_append, footSum_append, footSum_cons, footSum_cons,
      footprint, footprint, hb0sz]
  have hfootdec : footSum h.blocks
      = footSum pre + (footprint b + footSum post) := by
    rw [hdec, footSum_append, footSum_cons]
  have hsum : ∀ c ∈ post.head?,
      BLOCK_SIZE b0 + (BLOCKHEADER_SIZE + BLOCK_SIZE c) < IN_USE_MASK := by
    intro c hcmem
    cases post with
    | nil => simp at hcmem
    | cons c2 post2 =>
      have hc2 : c2 = c := by simpa using hcmem
      subst hc2
      rw [footSum_cons] at hfootdec
      rw [hb0sz]
      rw [footprint, footprint] at hfootdec
      omega
  have hlenb0 : b0.data.length = BLOCK_SIZE b0 := by
    rw [hb0sz]; exact hlen b hbmem
  have hlenc : ∀ c ∈ post.head?, c.data.length = BLOCK_SIZE c := by
    intro c hcmem
    cases post with
    | nil => simp at hcmem
    | cons c2 post2 =>
      have hc2 : c2 = c := by simpa using hcmem
      subst hc2
      exact hlen _ (by rw [hdec]; simp)
  obtain ⟨w, tail, hw1, hw2, hwaddr, hwbit, hw64, hwszge, hwpre, hwlen, hwfoot, -⟩ :=
    joinBWF_outcome pre b0 post a hpre hb (hb0lt.trans (by decide)) hlenb0 hsum hlenc
  have hb0free : BLOCK_FREE b0 = true := free_of_size_lt hb0lt
  have hwfree : BLOCK_FREE w = true := by
    rw [free_iff_bit] at hb0free ⊢
    rw [hwbit]; exact hb0free
  have hwend : a < BLOCK_END w := by
    rw [BLOCK_END, hwaddr, BLOCKHEADER_SIZE]
    omega
  rcases List.eq_nil_or_concat pre with hpre0 | ⟨pre2, pb, hpre2⟩
  · -- the released block heads the chain: no backward join
    subst hpre0
    have hprev : prevAddr ((joinBlockWithFollower (markFreeAt h.blocks a) a).1) a
        = none := by
      rw [hm, hw1]
      simpa using prevAddr_head w tail a hwaddr
    refine ⟨w, ?_, hwfree, le_of_eq hwaddr, hwend⟩
    simp only [freeBlock, hprev]
    rw [hm, hw1]
    simp
  · -- a preceding block exists
    rw [List.concat_eq_append] at hpre2
    subst hpre2
    have hpb_ne : pb.addr ≠ a := hpre pb (by simp)
    have hpre2_ne : ∀ x ∈ pre2, x.addr ≠ a := fun x hx => hpre x (by simp [hx])
    have hpre2_pb : ∀ x ∈ pre2, x.addr ≠ pb.addr := by
      intro x hx heq
      rw [List.map_append] at hnodup
      rcases List.nodup_append.mp hnodup with ⟨_, _, hdisj⟩
      exact hdisj (List.mem_map_of_mem _ hx) (by simp [heq])
    have hassoc : (pre2 ++ [pb]) ++ w :: tail = pre2 ++ pb :: w :: tail := by simp
    have hprev : prevAddr ((joinBlockWithFollower (markFreeAt h.blocks a) a).1) a
        = some pb.addr := by
      rw [hm, hw1, hassoc]
      exact prevAddr_decomp pre2 pb w tail a hpre2_ne hpb_ne hwaddr
    have hlook : lookupBlock ((joinBlockWithFollower (markFreeAt h.blocks a) a).1)
        pb.addr = some pb := by
      rw [hm, hw1, hassoc]
      exact lookupBlock_decomp pre2 pb (w :: tail) pb.addr hpre2_pb rfl
    by_cases hpbfree : BLOCK_FREE pb = true
    · -- backward join attempted
      have hpb64 : pb.size < UINTPTR_CARD := h64 pb (by rw [hdec]; simp)
      have hsum2 : BLOCK_SIZE pb + (BLOCKHEADER_SIZE + BLOCK_SIZE w) < IN_USE_MASK := by
        have hf3 : footSum ((pre2 ++ [pb]) ++ w :: tail)
            = footSum pre2 + (footprint pb + (footprint w + footSum tail)) := by
          rw [footSum_append, footSum_append, footSum_cons, footSum_cons]
          simp [footSum]
          omega
        rw [hfoot2] at hwfoot
        rw [hf3] at hwfoot
        rw [footprint, footprint] at hwfoot
        omega
      by_cases hend : BLOCK_END pb = a
      · -- the predecessor is contiguous: it absorbs the released block
        have hinw : BLOCK_IN_USE w = false := free_imp_not_inuse hwfree
        have hj2 : joinBlockWithFollower
            ((joinBlockWithFollower (markFreeAt h.blocks a) a).1) pb.addr
            = (pre2 ++ mergeBlocks pb w :: tail,
               BLOCK_SIZE (mergeBlocks pb w)) := by
          rw [hm, hw1, hassoc]
          exact joinBWF_join pre2 pb w tail pb.addr hpre2_pb rfl hinw
            (by rw [hwaddr]; exact hend)
        obtain ⟨haddr2, h64m2, hszm2, hbitm2, _⟩ := mergeBlocks_spec hpb64 hsum2
        have hfree2 : BLOCK_FREE (mergeBlocks pb w) = true := by
          rw [free_iff_bit] at hpbfree ⊢
          rw [hbitm2]; exact hpbfree
        have hendpb : pb.addr + BLOCKHEADER_SIZE + BLOCK_SIZE pb = a := hend
        refine ⟨mergeBlocks pb w, ?_, hfree2, ?_, ?_⟩
        · have hres : (freeBlock h a).blocks = pre2 ++ mergeBlocks pb w :: tail := by
            simp only [freeBlock, hprev, hlook]
            rw [if_pos hpbfree]
            simp only [hj2]
          rw [hres]
          simp
        · rw [haddr2, ← hendpb, BLOCKHEADER_SIZE]; omega
        · rw [BLOCK_END, haddr2, hszm2, ← hendpb, BLOCKHEADER_SIZE]; omega
      · -- the predecessor is free but not contiguous: no backward join
        have hj2 : joinBlockWithFollower
            ((joinBlockWithFollower (markFreeAt h.blocks a) a).1) pb.addr
            = (pre2 ++ pb :: w :: tail, BLOCK_SIZE pb) := by
          rw [hm, hw1, hassoc]
          exact joinBWF_noJoin pre2 pb w tail pb.addr hpre2_pb rfl
            (Or.inr (by rw [hwaddr]; exact hend))
        refine ⟨w, ?_, hwfree, le_of_eq hwaddr, hwend⟩
        have hres : (freeBlock h a).blocks = pre2 ++ pb :: w :: tail := by
          simp only [freeBlock, hprev, hlook]
          rw [if_pos hpbfree]
          simp only [hj2]
        rw [hres]
        simp
    · -- the predecessor is in use: no backward join
      have hpbfree2 : BLOCK_FREE pb = false := by
        cases hx : BLOCK_FREE pb with
        | false => rfl
        | true => exact absurd hx hpbfree
      refine ⟨w, ?_, hwfree, le_of_eq hwaddr, hwend⟩
      have hcond : ¬ (BLOCK_FREE pb = true) := by simp [hpbfree2]
      have hres : (freeBlock h a).blocks
          = (joinBlockWithFollower (markFreeAt h.blocks a) a).1 := by
        simp only [freeBlock, hprev, hlook]
        rw [if_neg hcond]
      rw [hres, hm, hw1]
      simp

/-- A two-block heap (two in-use 8-byte blocks) used to witness claim C8. -/
def c8Heap : Heap :=
  { blocks :=
      [{ addr := 4096, size := 2 ^ 63 + 8, data := [1, 2, 3, 4, 5, 6, 7, 8] },
       { addr := 4128, size := 2 ^ 63 + 8, data := List.replicate 8 0 }]
    brk := 4160 }

/-- Claim C8 (confirmed): my_realloc with a non-null pointer and size 0
performs exactly my_free on that pointer and returns NULL; afterwards the
region of the block that backed the pointer is covered by a free block. -/
theorem realloc_zero_releases (h : Heap) (pre post : List BlockHeader)
    (b : BlockHeader) (p : Nat) (sbrkOk : Bool)
    (hdec : h.blocks = pre ++ b :: post)
    (hpre : ∀ x ∈ pre, x.addr ≠ p - BLOCKHEADER_SIZE)
    (hb : b.addr = p - BLOCKHEADER_SIZE)
    (hnodup : (pre.map fun x => x.addr).Nodup)
    (h64 : ∀ x ∈ h.blocks, x.size < UINTPTR_CARD)
    (hlen : ∀ x ∈ h.blocks, x.data.length = BLOCK_SIZE x)
    (hfoot : footSum h.blocks < 2 ^ 62) :
    my_realloc h (some p) 0 sbrkOk = (my_free h (some p), none) ∧
    ∃ w ∈ (my_realloc h (some p) 0 sbrkOk).1.blocks,
      BLOCK_FREE w = true ∧
      w.addr ≤ p - BLOCKHEADER_SIZE ∧ p - BLOCKHEADER_SIZE < BLOCK_END w := by
  have heq : my_realloc h (some p) 0 sbrkOk = (my_free h (some p), none) := by
    simp [my_realloc]
  refine ⟨heq, ?_⟩
  rw [heq]
  show ∃ w ∈ (my_free h (some p)).blocks, _
  rw [my_free]
  exact freeBlock_frees h pre post b (p - BLOCKHEADER_SIZE)
    hdec hpre hb hnodup h64 hlen hfoot

/-- Witness for claim C8 on the heap c8Heap, releasing the first block via
my_realloc with size 0. -/
theorem realloc_zero_releases_witness :
    my_realloc c8Heap (some 4120) 0 true = (my_free c8Heap (some 4120), none) ∧
    ∃ w ∈ (my_realloc c8Heap (some 4120) 0 true).1.blocks,
      BLOCK_FREE w = true ∧
      w.addr ≤ 4120 - BLOCKHEADER_SIZE ∧ 4120 - BLOCKHEADER_SIZE < BLOCK_END w :=
  realloc_zero_releases c8Heap []
    [{ addr := 4128, size := 2 ^ 63 + 8, data := List.replicate 8 0 }]
    { addr := 4096, size := 2 ^ 63 + 8, data := [1, 2, 3, 4, 5, 6, 7, 8] }
    4120 true rfl (by simp) (by decide) (by simp) (by decide) (by decide) (by decide)

/-! Alignment arithmetic and failure paths. -/

theorem ALIGN_SIZE_spec (n : Nat) (hn : n + HEAP_ALIGNMENT < UINTPTR_CARD) :
    n ≤ ALIGN_SIZE n ∧ ALIGN_SIZE n ≤ n + HEAP_ALIGNMENT - 1 ∧
    ALIGN_SIZE n % HEAP_ALIGNMENT = 0 := by
  have hcard : UINTPTR_CARD = 2 ^ 64 := rfl
  have h8 : HEAP_ALIGNMENT = 8 := rfl
  rw [ALIGN_SIZE]
  rw [h8] at hn ⊢
  by_cases hz : n % 8 = 0
  · rw [if_pos hz]
    omega
  · rw [if_neg hz]
    have hm : n % 8 < 8 := Nat.mod_lt _ (by decide)
    have hw : n + (8 - n % 8) < UINTPTR_CARD := by rw [hcard] at hn ⊢; omega
    rw [Nat.mod_eq_of_lt hw]
    omega

/-- A failed growth leaves the heap untouched (sbrk returned (void*)-1
before any block was written). -/
theorem increaseHeap_fail_eq (h : Heap) (m : Nat) (ok : Bool) (h1 : Heap)
    (hf : increaseHeap h m ok = (h1, none)) : h1 = h := by
  rw [increaseHeap] at hf
  cases hlast : h.blocks.getLast? with
  | none =>
    simp only [hlast] at hf
    cases ok with
    | true => simp at hf
    | false =>
      rw [if_neg (by simp : ¬ (false : Bool) = true)] at hf
      exact congrArg Prod.fst hf.symm
  | some lb =>
    simp only [hlast] at hf
    cases ok with
    | true =>
      rw [if_pos rfl] at hf
      by_cases hcond : BLOCK_END lb = h.brk ∧ BLOCK_FREE lb = true
      · rw [if_pos hcond] at hf
        exact absurd (congrArg Prod.snd hf) (by simp)
      · rw [if_neg hcond] at hf
        exact absurd (congrArg Prod.snd hf) (by simp)
    | false =>
      rw [if_neg (by simp : ¬ (false : Bool) = true)] at hf
      exact congrArg Prod.fst hf.symm

/-- A failed getBlock (growth failed after an unsuccessful search) leaves
the heap untouched. -/
theorem getBlock_fail_eq (h : Heap) (m : Nat) (ok : Bool) (h1 : Heap)
    (hf : getBlock h m ok = (h1, none)) : h1 = h := by
  rw [getBlock] at hf
  cases hfind : findFreeBlock h.blocks (ALIGN_SIZE m) with
  | some a => rw [hfind] at hf; simp at hf
  | none =>
    rw [hfind] at hf
    rcases hinc : increaseHeap h (ALIGN_SIZE m) ok with ⟨hI, og⟩
    cases og with
    | none =>
      rw [hinc] at hf
      have h1I : h1 = hI := (congrArg Prod.fst hf).symm
      rw [h1I]
      exact increaseHeap_fail_eq h (ALIGN_SIZE m) ok hI hinc
    | some a => rw [hinc] at hf; simp at hf

/-- A resizeBlock call reporting failure (0) took the first branch: the
speculative join stands and the joined size was below the aligned target. -/
theorem resizeBlock_fail_eq (h : Heap) (a t : Nat)
    (ht : 0 < t) (htB : t < 2 ^ 62)
    (hres : (resizeBlock h a t).2 = 0) :
    (resizeBlock h a t).1 = { h with blocks := (joinBlockWithFollower h.blocks a).1 } ∧
    (joinBlockWithFollower h.blocks a).2 < ALIGN_SIZE t := by
  obtain ⟨hge, hle, -⟩ := ALIGN_SIZE_spec t (by rw [UINTPTR_CARD, HEAP_ALIGNMENT]; omega)
  have halM : ALIGN_SIZE t < IN_USE_MASK := by
    rw [IN_USE_MASK]; rw [HEAP_ALIGNMENT] at hle; omega
  by_cases hc : (joinBlockWithFollower h.blocks a).2 < ALIGN_SIZE t
  · constructor
    · rw [resizeBlock]
      simp only [if_pos hc]
    · exact hc
  · exfalso
    rw [resizeBlock] at hres
    simp only [if_neg hc] at hres
    split at hres
    · omega
    · rw [Nat.mod_eq_of_lt halM] at hres
      omega

/-- A heap holding an in-use 8-byte block followed by a free 8-byte block,
used for claim C1. -/
def c1Heap : Heap :=
  { blocks :=
      [{ addr := 4096, size := 2 ^ 63 + 8, data := [1, 2, 3, 4, 5, 6, 7, 8] },
       { addr := 4128, size := 8, data := List.replicate 8 0 }]
    brk := 4160 }

/-- Counterexample to claim C1: reallocating the 8-byte block at 4096 to
104 bytes fails in place (8 + header + 8 = 40 < 104) and the fallback
allocation fails (sbrk fails); my_realloc returns NULL, but the original
block was NOT restored to its original size 8: the speculative forward
join stands and the block now has size 40, having swallowed its free
follower. -/
theorem realloc_fail_no_revert_cex :
    (my_realloc c1Heap (some 4120) 104 false).2 = none ∧
    ((my_realloc c1Heap (some 4120) 104 false).1.blocks.map
        fun b => (b.addr, BLOCK_SIZE b, BLOCK_IN_USE b)) = [(4096, 40, true)] ∧
    BLOCK_SIZE { addr := 4096, size := 2 ^ 63 + 8,
                 data := [1, 2, 3, 4, 5, 6, 7, 8] } = 8 ∧
    (8 : Nat) ≠ 40 := by
  refine ⟨by decide, by decide, by decide, by decide⟩

/-- Claim C1 (amended): when the in-place resize attempt of my_realloc
fails and the fallback allocation also fails, my_realloc returns the
failure indicator and the original block remains present at its address,
still allocated, with its original payload bytes as a prefix of its
payload; its size, however, is not restored: the speculative forward join
is never undone, so the block may have absorbed its free follower and
grown (it never shrinks). -/
theorem realloc_fail_keeps_block (h : Heap) (pre post : List BlockHeader)
    (b : BlockHeader) (p size : Nat) (sbrkOk : Bool) (h2 : Heap)
    (hdec : h.blocks = pre ++ b :: post)
    (hpre : ∀ x ∈ pre, x.addr ≠ p - BLOCKHEADER_SIZE)
    (hb : b.addr = p - BLOCKHEADER_SIZE)
    (h64 : ∀ x ∈ h.blocks, x.size < UINTPTR_CARD)
    (hlen : ∀ x ∈ h.blocks, x.data.length = BLOCK_SIZE x)
    (hfoot : footSum h.blocks < 2 ^ 62)
    (hsz : 0 < size) (hszB : size < 2 ^ 62)
    (hfail : my_realloc h (some p) size sbrkOk = (h2, none)) :
    ∃ w tail, h2.blocks = pre ++ w :: tail ∧
      w.addr = p - BLOCKHEADER_SIZE ∧
      BLOCK_IN_USE w = BLOCK_IN_USE b ∧
      BLOCK_SIZE b ≤ BLOCK_SIZE w ∧
      b.data <+: w.data := by
  have hbmem : b ∈ h.blocks := by
    rw [hdec]; exact List.mem_append_right _ (List.mem_cons_self _ _)
  have hsum : ∀ c ∈ post.head?,
      BLOCK_SIZE b + (BLOCKHEADER_SIZE + BLOCK_SIZE c) < IN_USE_MASK := by
    intro c hcmem
    cases post with
    | nil => simp at hcmem
    | cons c2 post2 =>
      have hc2 : c2 = c := by simpa using hcmem
      subst hc2
      have hfd : footSum h.blocks
          = footSum pre + (footprint b + (footprint c2 + footSum post2)) := by
        rw [hdec, footSum_append, footSum_cons, footSum_cons]
      rw [footprint, footprint] at hfd
      have hM : (2 : Nat) ^ 62 ≤ IN_USE_MASK := by decide
      omega
  have hlenc : ∀ c ∈ post.head?, c.data.length = BLOCK_SIZE c := by
    intro c hcmem
    cases post with
    | nil => simp at hcmem
    | cons c2 post2 =>
      have hc2 : c2 = c := by simpa using hcmem
      subst hc2
      exact hlen _ (by rw [hdec]; simp)
  obtain ⟨w, tail, hw1, hw2, hwaddr, hwbit, hw64, hwge, hwprefix, hwlen, hwfoot, -⟩ :=
    joinBWF_outcome pre b post (p - BLOCKHEADER_SIZE) hpre hb (h64 b hbmem)
      (hlen b hbmem) hsum hlenc
  simp only [my_realloc] at hfail
  rw [if_neg (by omega : ¬ size = 0)] at hfail
  by_cases hr : 0 < (resizeBlock h (p - BLOCKHEADER_SIZE) size).2
  · rw [if_pos hr] at hfail
    simp at hfail
  · rw [if_neg hr] at hfail
    have hr0 : (resizeBlock h (p - BLOCKHEADER_SIZE) size).2 = 0 := by omega
    obtain ⟨hres1, -⟩ :=
      resizeBlock_fail_eq h (p - BLOCKHEADER_SIZE) size hsz hszB hr0
    rcases hgpair : getBlock (resizeBlock h (p - BLOCKHEADER_SIZE) size).1
        size sbrkOk with ⟨hg1, og⟩
    rw [hgpair] at hfail
    cases og with
    | some na => simp at hfail
    | none =>
      have hh2 : h2 = hg1 := by
        have := congrArg Prod.fst hfail
        simpa using this.symm
      have hg1eq : hg1 = (resizeBlock h (p - BLOCKHEADER_SIZE) size).1 :=
        getBlock_fail_eq _ _ _ _ hgpair
      refine ⟨w, tail, ?_, hwaddr, ?_, hwge, hwprefix⟩
      · rw [hh2, hg1eq, hres1]
        show (joinBlockWithFollower h.blocks (p - BLOCKHEADER_SIZE)).1
            = pre ++ w :: tail
        rw [hdec]
        exact hw1
      · rw [BLOCK_IN_USE, BLOCK_IN_USE, hwbit]

/-- Witness for the amended claim C1 on c1Heap: the failed move leaves the
block at 4096 allocated, with its 8 original bytes intact, enlarged to 40
bytes by the unreverted join. -/
theorem realloc_fail_keeps_block_witness :
    ∃ w tail,
      (my_realloc c1Heap (some 4120) 104 false).1.blocks = [] ++ w :: tail ∧
      w.addr = 4120 - BLOCKHEADER_SIZE ∧
      BLOCK_IN_USE w = BLOCK_IN_USE { addr := 4096, size := 2 ^ 63 + 8,
                                      data := [1, 2, 3, 4, 5, 6, 7, 8] } ∧
      BLOCK_SIZE { addr := 4096, size := 2 ^ 63 + 8,
                   data := [1, 2, 3, 4, 5, 6, 7, 8] } ≤ BLOCK_SIZE w ∧
      ([1, 2, 3, 4, 5, 6, 7, 8] : List Nat) <+: w.data := by
  have hmain := realloc_fail_keeps_block c1Heap []
    [{ addr := 4128, size := 8, data := List.replicate 8 0 }]
    { addr := 4096, size := 2 ^ 63 + 8, data := [1, 2, 3, 4, 5, 6, 7, 8] }
    4120 104 false (my_realloc c1Heap (some 4120) 104 false).1
    rfl (by simp) (by decide) (by decide) (by decide) (by decide)
    (by decide) (by decide) (by decide)
  exact hmain

/-! Well-formed chains: per-block sanity plus an address-ordered,
non-overlapping layout, the state every allocator-built heap satisfies. -/

/-- Per-block sanity: the size field fits size_t, the payload content has
exactly BLOCK_SIZE bytes, and the payload size is aligned (invariant I1). -/
def blockOK (x : BlockHeader) : Bool :=
  decide (x.size < UINTPTR_CARD) && (x.data.length == BLOCK_SIZE x)
    && (BLOCK_SIZE x % HEAP_ALIGNMENT == 0)

/-- Two blocks in chain order do not overlap: the first ends at or before
the second's header. -/
def adjOK (x y : BlockHeader) : Prop := BLOCK_END x ≤ y.addr

instance : DecidableRel adjOK := fun x y =>
  inferInstanceAs (Decidable (BLOCK_END x ≤ y.addr))

/-- A well-formed chain: every block sane, consecutive blocks laid out in
increasing address order without overlap. -/
def chainWF (bs : List BlockHeader) : Prop :=
  (∀ x ∈ bs, blockOK x = true) ∧ List.Chain' adjOK bs

instance (bs : List BlockHeader) : Decidable (chainWF bs) :=
  inferInstanceAs (Decidable (_ ∧ _))

theorem blockOK_spec {x : BlockHeader} (h : blockOK x = true) :
    x.size < UINTPTR_CARD ∧ x.data.length = BLOCK_SIZE x ∧
    BLOCK_SIZE x % HEAP_ALIGNMENT = 0 := by
  rw [blockOK] at h
  simp only [Bool.and_eq_true, decide_eq_true_eq, beq_iff_eq] at h
  exact ⟨h.1.1, h.1.2, h.2⟩

theorem blockOK_mk {x : BlockHeader} (h1 : x.size < UINTPTR_CARD)
    (h2 : x.data.length = BLOCK_SIZE x) (h3 : BLOCK_SIZE x % HEAP_ALIGNMENT = 0) :
    blockOK x = true := by
  rw [blockOK]
  simp only [Bool.and_eq_true, decide_eq_true_eq, beq_iff_eq]
  exact ⟨⟨h1, h2⟩, h3⟩

theorem chainWF_pairwise {bs : List BlockHeader} (h : chainWF bs) :
    List.Pairwise (fun x y => x.addr < y.addr) bs := by
  have hchain : List.Chain' (fun x y => x.addr < y.addr) bs := by
    refine List.Chain'.imp ?_ h.2
    intro x y hxy
    have hx : x.addr < BLOCK_END x := by rw [BLOCK_END, BLOCKHEADER_SIZE]; omega
    exact lt_of_lt_of_le hx hxy
  have hmap : List.Chain' (fun u v => u < v) (bs.map fun x => x.addr) := by
    rw [List.chain'_map]
    exact hchain
  have hpw := List.chain'_iff_pairwise.mp hmap
  rw [List.pairwise_map] at hpw
  exact hpw

theorem chainWF_nodup {bs : List BlockHeader} (h : chainWF bs) :
    ((bs.map fun x => x.addr)).Nodup := by
  have hpw := chainWF_pairwise h
  have hlt : List.Pairwise (fun u v : Nat => u < v) (bs.map fun x => x.addr) := by
    rw [List.pairwise_map]
    exact hpw
  exact hlt.imp fun hab => Nat.ne_of_lt hab

theorem mem_decomp_of_chainWF {bs : List BlockHeader} {x : BlockHeader}
    (h : chainWF bs) (hx : x ∈ bs) :
    ∃ P Q, bs = P ++ x :: Q ∧ (∀ y ∈ P, y.addr < x.addr) ∧
      (∀ y ∈ Q, x.addr < y.addr) := by
  obtain ⟨P, Q, hdec⟩ := List.append_of_mem hx
  subst hdec
  have hp := chainWF_pairwise h
  rw [List.pairwise_append] at hp
  obtain ⟨-, hxq, hcross⟩ := hp
  refine ⟨P, Q, rfl, ?_, ?_⟩
  · intro y hy
    exact hcross y hy x (List.mem_cons_self _ _)
  · intro y hy
    exact (List.pairwise_cons.mp hxq).1 y hy

/-- Replace one block by another with the same header address; the links to
what follows are re-established by the hypothesis. -/
theorem chain_replace1 {pre post : List BlockHeader} {b x : BlockHeader}
    (hch : List.Chain' adjOK (pre ++ b :: post))
    (haddr : x.addr = b.addr)
    (hend : ∀ y ∈ post.head?, BLOCK_END x ≤ y.addr) :
    List.Chain' adjOK (pre ++ x :: post) := by
  rw [List.chain'_append] at hch ⊢
  obtain ⟨h1, h2, h3⟩ := hch
  rw [List.chain'_cons'] at h2 ⊢
  refine ⟨h1, ⟨hend, h2.2⟩, ?_⟩
  intro u hu y hy
  have hy2 : x = y := by simpa using hy
  subst hy2
  show BLOCK_END u ≤ x.addr
  rw [haddr]
  exact h3 u hu b (by simp)

/-- Replace two consecutive blocks by one merged block starting at the
first and reaching at most to where the second ended. -/
theorem chain_merge2 {pre post : List BlockHeader} {b c m : BlockHeader}
    (hch : List.Chain' adjOK (pre ++ b :: c :: post))
    (haddr : m.addr = b.addr)
    (hend : ∀ y ∈ post.head?, BLOCK_END m ≤ y.addr) :
    List.Chain' adjOK (pre ++ m :: post) := by
  rw [List.chain'_append] at hch ⊢
  obtain ⟨h1, h2, h3⟩ := hch
  rw [List.chain'_cons'] at h2
  refine ⟨h1, ?_, ?_⟩
  · rw [List.chain'_cons']
    rw [List.chain'_cons'] at h2
    exact ⟨hend, h2.2.2⟩
  · intro u hu y hy
    have hy2 : m = y := by simpa using hy
    subst hy2
    show BLOCK_END u ≤ m.addr
    rw [haddr]
    exact h3 u hu b (by simp)

/-- Replace one block by two consecutive blocks covering the same span. -/
theorem chain_split2 {pre post : List BlockHeader} {b x y : BlockHeader}
    (hch : List.Chain' adjOK (pre ++ b :: post))
    (hx : x.addr = b.addr) (hxy : BLOCK_END x ≤ y.addr)
    (hyend : ∀ z ∈ post.head?, BLOCK_END y ≤ z.addr) :
    List.Chain' adjOK (pre ++ x :: y :: post) := by
  rw [List.chain'_append] at hch ⊢
  obtain ⟨h1, h2, h3⟩ := hch
  rw [List.chain'_cons'] at h2
  refine ⟨h1, ?_, ?_⟩
  · rw [List.chain'_cons']
    refine ⟨by simpa using hxy, ?_⟩
    rw [List.chain'_cons']
    exact ⟨hyend, h2.2⟩
  · intro u hu z hz
    have hz2 : x = z := by simpa using hz
    subst hz2
    show BLOCK_END u ≤ x.addr
    rw [hx]
    exact h3 u hu b (by simp)

theorem orInUse_lt {s : Nat} (h : s < UINTPTR_CARD) : orInUse s < UINTPTR_CARD := by
  rw [orInUse]
  have hcard := card_eq_two_mul_mask
  split <;> omega

theorem orInUse_mod (s : Nat) : orInUse s % IN_USE_MASK = s % IN_USE_MASK := by
  rw [orInUse]
  split
  · rw [Nat.add_mod_right]
  · rfl

theorem orInUse_div {s : Nat} (h : s < UINTPTR_CARD) :
    orInUse s / IN_USE_MASK = 1 := by
  rw [orInUse]
  have hcard := card_eq_two_mul_mask
  split
  · next hlt => rw [Nat.add_div_right _ (by decide), Nat.div_eq_of_lt hlt]
  · next hge =>
    push_neg at hge
    have h1 : 1 ≤ s / IN_USE_MASK := (Nat.one_le_div_iff (by decide)).mpr hge
    have h2 : s / IN_USE_MASK < 2 :=
      (Nat.div_lt_iff_lt_mul (by decide)).mpr (by omega)
    omega

/-- resizeBlock on a free block already at least as large as the aligned
target: the chain stays well formed, every in-use block survives untouched,
the block keeps its position and in-use bit and holds at least the target. -/
theorem resizeBlock_spec (h : Heap) (P Q : List BlockHeader) (bf : BlockHeader)
    (t : Nat)
    (hdec : h.blocks = P ++ bf :: Q)
    (hwf : chainWF h.blocks)
    (hfoot : footSum h.blocks ≤ 2 ^ 62)
    (hbffree : BLOCK_FREE bf = true)
    (ht8 : t % HEAP_ALIGNMENT = 0)
    (htle : t ≤ BLOCK_SIZE bf) (ht0 : 0 < t) :
    ∃ w tail,
      (resizeBlock h bf.addr t).1.blocks = P ++ w :: tail ∧
      (resizeBlock h bf.addr t).1.brk = h.brk ∧
      w.addr = bf.addr ∧ inUseBit w = inUseBit bf ∧
      t ≤ BLOCK_SIZE w ∧ blockOK w = true ∧
      chainWF (P ++ w :: tail) ∧
      footSum (P ++ w :: tail) = footSum h.blocks ∧
      (∀ x ∈ h.blocks, BLOCK_IN_USE x = true → x ∈ P ++ w :: tail) ∧
      (∀ B, (∀ x ∈ h.blocks, BLOCK_END x ≤ B) →
        ∀ x ∈ P ++ w :: tail, BLOCK_END x ≤ B) := by
  have ht : ALIGN_SIZE t = t := ALIGN_SIZE_of_aligned ht8
  have hOK := hwf.1
  have hbfmem : bf ∈ h.blocks := by rw [hdec]; simp
  have hOKbf := blockOK_spec (hOK bf hbfmem)
  have hpair := chainWF_pairwise hwf
  rw [hdec, List.pairwise_append] at hpair
  have hpre : ∀ x ∈ P, x.addr ≠ bf.addr := by
    intro x hx
    exact Nat.ne_of_lt (hpair.2.2 x hx bf (by simp))
  have hfd : footSum h.blocks = footSum P + (footprint bf + footSum Q) := by
    rw [hdec, footSum_append, footSum_cons]
  have hsum : ∀ c ∈ Q.head?,
      BLOCK_SIZE bf + (BLOCKHEADER_SIZE + BLOCK_SIZE c) < IN_USE_MASK := by
    intro c hc
    cases Q with
    | nil => simp at hc
    | cons c2 post2 =>
      have hcc : c2 = c := by simpa using hc
      subst hcc
      rw [footSum_cons] at hfd
      rw [footprint, footprint] at hfd
      have hMbig : (2 : Nat) ^ 62 < IN_USE_MASK := by decide
      omega
  have hlenc : ∀ c ∈ Q.head?, c.data.length = BLOCK_SIZE c := by
    intro c hc
    cases Q with
    | nil => simp at hc
    | cons c2 post2 =>
      have hcc : c2 = c := by simpa using hc
      subst hcc
      exact (blockOK_spec (hOK _ (by rw [hdec]; simp))).2.1
  have halc : ∀ c ∈ Q.head?, BLOCK_SIZE c % HEAP_ALIGNMENT = 0 := by
    intro c hc
    cases Q with
    | nil => simp at hc
    | cons c2 post2 =>
      have hcc : c2 = c := by simpa using hc
      subst hcc
      exact (blockOK_spec (hOK _ (by rw [hdec]; simp))).2.2
  obtain ⟨w0, tail0, hw1, hw2, hwaddr, hwbit, hw64, hwge, hwpre0, hwlen, hwfoot, hwcase⟩ :=
    joinBWF_outcome P bf Q bf.addr hpre rfl hOKbf.1 hOKbf.2.1 hsum hlenc
  have hal0 : BLOCK_SIZE w0 % HEAP_ALIGNMENT = 0 := by
    rcases hwcase with ⟨hwb, -⟩ | ⟨c, post2, hQ, -, -, -, hfp⟩
    · rw [hwb]; exact hOKbf.2.2
    · have hc8 := halc c (by rw [hQ]; simp)
      rw [footprint, footprint, footprint] at hfp
      have hbf8 := hOKbf.2.2
      rw [show HEAP_ALIGNMENT = 8 from rfl] at hc8 hbf8 ⊢
      rw [show BLOCKHEADER_SIZE = 24 from rfl] at hfp
      omega
  have hOKw0 : blockOK w0 = true := blockOK_mk hw64 hwlen hal0
  have htail0 : ∀ x ∈ tail0, x ∈ Q := by
    rcases hwcase with ⟨-, ht0'⟩ | ⟨c, post2, hQ, ht0', -, -, -⟩
    · rw [ht0']; exact fun x hx => hx
    · rw [ht0', hQ]; exact fun x hx => List.mem_cons_of_mem _ hx
  have hch' : List.Chain' adjOK (P ++ bf :: Q) := by
    have := hwf.2
    rw [hdec] at this
    exact this
  have hchain0 : List.Chain' adjOK (P ++ w0 :: tail0) := by
    rcases hwcase with ⟨hwb, ht0'⟩ | ⟨c, post2, hQ, ht0', -, hend, -⟩
    · rw [hwb, ht0']; exact hch'
    · rw [ht0']
      rw [hQ] at hch'
      refine chain_merge2 hch' (by rw [hwaddr]) ?_
      intro y hy
      rw [hend]
      rw [List.chain'_append] at hch'
      have h2 := hch'.2.1
      rw [List.chain'_cons'] at h2
      have h3 := h2.2
      rw [List.chain'_cons'] at h3
      exact h3.1 y hy
  have hwf0 : chainWF (P ++ w0 :: tail0) := by
    refine ⟨?_, hchain0⟩
    intro x hx
    rcases List.mem_append.mp hx with hxP | hxw
    · exact hOK x (by rw [hdec]; exact List.mem_append_left _ hxP)
    · rcases List.mem_cons.mp hxw with hxw | hxt
      · rw [hxw]; exact hOKw0
      · refine hOK x ?_
        rw [hdec]
        exact List.mem_append_right _ (List.mem_cons_of_mem _ (htail0 x hxt))
  have hfoot0 : footSum (P ++ w0 :: tail0) = footSum h.blocks := by
    rw [hdec]; exact hwfoot
  have hendsw0 : ∀ B, (∀ x ∈ h.blocks, BLOCK_END x ≤ B) →
      ∀ x ∈ P ++ w0 :: tail0, BLOCK_END x ≤ B := by
    intro B hB x hx
    rcases List.mem_append.mp hx with hxP | hxw
    · exact hB x (by rw [hdec]; exact List.mem_append_left _ hxP)
    · rcases List.mem_cons.mp hxw with hxw | hxt
      · subst hxw
        rcases hwcase with ⟨hwb, -⟩ | ⟨c, post2, hQ, -, -, hend, -⟩
        · rw [hwb]; exact hB bf hbfmem
        · rw [hend]
          exact hB c (by rw [hdec, hQ]; simp)
      · refine hB x ?_
        rw [hdec]
        exact List.mem_append_right _ (List.mem_cons_of_mem _ (htail0 x hxt))
  have hw0free : BLOCK_IN_USE w0 = false := by
    have := free_imp_not_inuse hbffree
    rw [BLOCK_IN_USE, hwbit]
    rw [BLOCK_IN_USE] at this
    exact this
  have hinuse0 : ∀ x ∈ h.blocks, BLOCK_IN_USE x = true → x ∈ P ++ w0 :: tail0 := by
    intro x hx hxuse
    rw [hdec] at hx
    rcases List.mem_append.mp hx with hxP | hxr
    · exact List.mem_append_left _ hxP
    · rcases List.mem_cons.mp hxr with hxb | hxQ
      · exfalso
        rw [hxb] at hxuse
        rw [free_imp_not_inuse hbffree] at hxuse
        exact Bool.false_ne_true hxuse
      · rcases hwcase with ⟨-, ht0'⟩ | ⟨c, post2, hQ, ht0', hcfree, -, -⟩
        · rw [ht0']
          exact List.mem_append_right _ (List.mem_cons_of_mem _ hxQ)
        · rw [hQ] at hxQ
          rcases List.mem_cons.mp hxQ with hxc | hxp2
          · exfalso
            rw [hxc] at hxuse
            rw [free_imp_not_inuse hcfree] at hxuse
            exact Bool.false_ne_true hxuse
          · rw [ht0']
            exact List.mem_append_right _ (List.mem_cons_of_mem _ hxp2)
  have hj1 : (joinBlockWithFollower h.blocks bf.addr).1 = P ++ w0 :: tail0 := by
    rw [hdec]; exact hw1
  have hj2 : (joinBlockWithFollower h.blocks bf.addr).2 = BLOCK_SIZE w0 := by
    rw [hdec]; exact hw2
  have htw0 : t ≤ BLOCK_SIZE w0 := le_trans htle hwge
  have hnlt : ¬ ((joinBlockWithFollower h.blocks bf.addr).2 < ALIGN_SIZE t) := by
    rw [hj2, ht]; omega
  by_cases hsp : (joinBlockWithFollower h.blocks bf.addr).2
      < ALIGN_SIZE t + BLOCKHEADER_SIZE + HEAP_ALIGNMENT
  · have hres : resizeBlock h bf.addr t
        = ({ h with blocks := P ++ w0 :: tail0 }, BLOCK_SIZE w0) := by
      simp only [resizeBlock]
      rw [if_neg hnlt, if_pos hsp, hj1, hj2]
    refine ⟨w0, tail0, ?_, ?_, hwaddr, hwbit, htw0, hOKw0, hwf0, hfoot0, hinuse0, hendsw0⟩
    · rw [hres]
    · rw [hres]
  · have hsp2 : ALIGN_SIZE t + BLOCKHEADER_SIZE + HEAP_ALIGNMENT
        ≤ BLOCK_SIZE w0 := by
      rw [← hj2]; omega
    rw [ht] at hsp2
    have htM : t < IN_USE_MASK := lt_of_le_of_lt htle (BLOCK_SIZE_lt bf)
    have hbit1 := inUseBit_le_one hw64
    set w1 : BlockHeader :=
      { addr := w0.addr, size := NEW_SIZE (inUseBit w0) t,
        data := w0.data.take t } with hw1def
    set nb : BlockHeader :=
      { addr := w0.addr + BLOCKHEADER_SIZE + t,
        size := BLOCK_SIZE w0 - BLOCKHEADER_SIZE - t,
        data := w0.data.drop (t + BLOCKHEADER_SIZE) } with hnbdef
    have hspdecomp : splitBlockAt (P ++ w0 :: tail0) bf.addr t
        = P ++ w1 :: nb :: tail0 := by
      have := splitBlockAt_decomp P w0 tail0 bf.addr t hpre hwaddr
      rw [this]
    have hres : resizeBlock h bf.addr t
        = ({ h with blocks := P ++ w1 :: nb :: tail0 }, t % IN_USE_MASK) := by
      simp only [resizeBlock]
      rw [if_neg hnlt, if_neg (by omega : ¬ (joinBlockWithFollower h.blocks bf.addr).2
        < ALIGN_SIZE t + BLOCKHEADER_SIZE + HEAP_ALIGNMENT), hj1, ht, hspdecomp]
    have hsz1 : BLOCK_SIZE w1 = t := NEW_SIZE_mod _ _ htM
    have hbit1' : inUseBit w1 = inUseBit w0 := NEW_SIZE_div _ _ htM
    have hHA : HEAP_ALIGNMENT = 8 := rfl
    have hBH : BLOCKHEADER_SIZE = 24 := rfl
    have hOK1 : blockOK w1 = true := by
      refine blockOK_mk ?_ ?_ ?_
      · exact NEW_SIZE_lt _ _ hbit1 htM
      · show (w0.data.take t).length = BLOCK_SIZE w1
        rw [hsz1, List.length_take, hwlen]
        omega
      · rw [hsz1]; exact ht8
    have hsznb : BLOCK_SIZE nb = BLOCK_SIZE w0 - BLOCKHEADER_SIZE - t := by
      show (BLOCK_SIZE w0 - BLOCKHEADER_SIZE - t) % IN_USE_MASK = _
      refine Nat.mod_eq_of_lt ?_
      have := BLOCK_SIZE_lt w0
      omega
    have hOKnb : blockOK nb = true := by
      refine blockOK_mk ?_ ?_ ?_
      · show BLOCK_SIZE w0 - BLOCKHEADER_SIZE - t < UINTPTR_CARD
        have := BLOCK_SIZE_lt w0
        have := card_eq_two_mul_mask
        omega
      · show (w0.data.drop (t + BLOCKHEADER_SIZE)).length = BLOCK_SIZE nb
        rw [hsznb, List.length_drop, hwlen]
        omega
      · rw [hsznb]
        have h1 := hal0
        have h2 := ht8
        have h3 := hsp2
        rw [show HEAP_ALIGNMENT = 8 from rfl] at h1 h2 h3 ⊢
        rw [show BLOCKHEADER_SIZE = 24 from rfl] at h3 ⊢
        omega
    have hend1 : BLOCK_END w1 = nb.addr := by
      rw [BLOCK_END, hsz1]
    have hendnb : BLOCK_END nb = BLOCK_END w0 := by
      rw [BLOCK_END, BLOCK_END, hsznb]
      show w0.addr + BLOCKHEADER_SIZE + t + BLOCKHEADER_SIZE
          + (BLOCK_SIZE w0 - BLOCKHEADER_SIZE - t)
        = w0.addr + BLOCKHEADER_SIZE + BLOCK_SIZE w0
      have h3 := hsp2
      rw [show HEAP_ALIGNMENT = 8 from rfl] at h3
      rw [show BLOCKHEADER_SIZE = 24 from rfl] at h3 ⊢
      omega
    have hlink0 : ∀ z ∈ tail0.head?, BLOCK_END w0 ≤ z.addr := by
      intro z hz
      have := hchain0
      rw [List.chain'_append] at this
      have h2 := this.2.1
      rw [List.chain'_cons'] at h2
      exact h2.1 z hz
    have hchain2 : List.Chain' adjOK (P ++ w1 :: nb :: tail0) := by
      refine chain_split2 hchain0 rfl (le_of_eq hend1) ?_
      intro z hz
      rw [hendnb]
      exact hlink0 z hz
    have hfp2 : footprint w1 + footprint nb = footprint w0 := by
      rw [footprint, footprint, footprint, hsz1, hsznb]
      have h3 := hsp2
      rw [show HEAP_ALIGNMENT = 8 from rfl] at h3
      rw [show BLOCKHEADER_SIZE = 24 from rfl] at h3 ⊢
      omega
    refine ⟨w1, nb :: tail0, ?_, ?_, hwaddr, ?_, ?_, hOK1, ?_, ?_, ?_, ?_⟩
    · rw [hres]
    · rw [hres]
    · rw [hbit1', hwbit]
    · rw [hsz1]
    · refine ⟨?_, hchain2⟩
      intro x hx
      rcases List.mem_append.mp hx with hxP | hxw
      · exact hwf0.1 x (List.mem_append_left _ hxP)
      · rcases List.mem_cons.mp hxw with hx1 | hxw2
        · rw [hx1]; exact hOK1
        · rcases List.mem_cons.mp hxw2 with hx2 | hxt
          · rw [hx2]; exact hOKnb
          · exact hwf0.1 x (List.mem_append_right _ (List.mem_cons_of_mem _ hxt))
    · rw [footSum_append, footSum_cons, footSum_cons]
      rw [footSum_append, footSum_cons] at hfoot0
      omega
    · intro x hx hxuse
      have hmem := hinuse0 x hx hxuse
      rcases List.mem_append.mp hmem with hxP | hxw
      · exact List.mem_append_left _ hxP
      · rcases List.mem_cons.mp hxw with hxw0 | hxt
        · exfalso
          rw [hxw0] at hxuse
          rw [hw0free] at hxuse
          exact Bool.false_ne_true hxuse
        · exact List.mem_append_right _
            (List.mem_cons_of_mem _ (List.mem_cons_of_mem _ hxt))
    · intro B hB x hx
      have hB0 := hendsw0 B hB
      rcases List.mem_append.mp hx with hxP | hxw
      · exact hB0 x (List.mem_append_left _ hxP)
      · rcases List.mem_cons.mp hxw with hx1 | hxw2
        · subst hx1
          have hw0B : BLOCK_END w0 ≤ B := hB0 w0 (by simp)
          have haddr1 : w1.addr = w0.addr := rfl
          have hE1 : BLOCK_END w1 = w1.addr + BLOCKHEADER_SIZE + BLOCK_SIZE w1 := rfl
          have hE0 : BLOCK_END w0 = w0.addr + BLOCKHEADER_SIZE + BLOCK_SIZE w0 := rfl
          rw [hE1, haddr1, hsz1]
          rw [hE0] at hw0B
          omega
        · rcases List.mem_cons.mp hxw2 with hx2 | hxt
          · subst hx2
            rw [hendnb]
            exact hB0 w0 (by simp)
          · exact hB0 x (List.mem_append_right _ (List.mem_cons_of_mem _ hxt))

theorem size_lt_of_free {x : BlockHeader} (hfree : BLOCK_FREE x = true)
    (h64 : x.size < UINTPTR_CARD) : x.size < IN_USE_MASK := by
  have hbit := free_iff_bit.mp hfree
  have hle := inUseBit_le_one h64
  have hd := size_decomp x
  have hb0 : inUseBit x = 0 := by omega
  rw [hb0] at hd
  have := BLOCK_SIZE_lt x
  omega

/-- Arithmetic of the initial-growth block size computed by increaseHeap
(including the doubled-size case the first-growth bug exposes). -/
theorem initPayload_spec (m : Nat) (hm8 : m % HEAP_ALIGNMENT = 0)
    (hmB : m < 2 ^ 61) :
    ((if HEAP_INITIAL_SIZE < (m + BLOCKHEADER_SIZE) % UINTPTR_CARD
        then ((m + BLOCKHEADER_SIZE) % UINTPTR_CARD * 2) % UINTPTR_CARD
        else HEAP_INITIAL_SIZE)
      + (UINTPTR_CARD - BLOCKHEADER_SIZE)) % UINTPTR_CARD < IN_USE_MASK ∧
    m ≤ ((if HEAP_INITIAL_SIZE < (m + BLOCKHEADER_SIZE) % UINTPTR_CARD
        then ((m + BLOCKHEADER_SIZE) % UINTPTR_CARD * 2) % UINTPTR_CARD
        else HEAP_INITIAL_SIZE)
      + (UINTPTR_CARD - BLOCKHEADER_SIZE)) % UINTPTR_CARD ∧
    ((if HEAP_INITIAL_SIZE < (m + BLOCKHEADER_SIZE) % UINTPTR_CARD
        then ((m + BLOCKHEADER_SIZE) % UINTPTR_CARD * 2) % UINTPTR_CARD
        else HEAP_INITIAL_SIZE)
      + (UINTPTR_CARD - BLOCKHEADER_SIZE)) % UINTPTR_CARD % HEAP_ALIGNMENT = 0 ∧
    BLOCKHEADER_SIZE +
      ((if HEAP_INITIAL_SIZE < (m + BLOCKHEADER_SIZE) % UINTPTR_CARD
        then ((m + BLOCKHEADER_SIZE) % UINTPTR_CARD * 2) % UINTPTR_CARD
        else HEAP_INITIAL_SIZE)
      + (UINTPTR_CARD - BLOCKHEADER_SIZE)) % UINTPTR_CARD
      ≤ 2 * m + 2 * BLOCKHEADER_SIZE + HEAP_INITIAL_SIZE := by
  have hc : UINTPTR_CARD = 18446744073709551616 := by decide
  have hM : IN_USE_MASK = 9223372036854775808 := by decide
  have hB : BLOCKHEADER_SIZE = 24 := rfl
  have hH : HEAP_INITIAL_SIZE = 1048576 := by decide
  have hA : HEAP_ALIGNMENT = 8 := rfl
  rw [hA] at hm8
  rw [hc, hM, hB, hH, hA]
  have h1 : (m + 24) % 18446744073709551616 = m + 24 :=
    Nat.mod_eq_of_lt (by omega)
  rw [h1]
  by_cases hbig : 1048576 < m + 24
  · rw [if_pos hbig]
    have h2 : (m + 24) * 2 % 18446744073709551616 = 2 * m + 48 := by
      rw [Nat.mod_eq_of_lt (by omega)]
      ring
    rw [h2]
    omega
  · rw [if_neg hbig]
    omega

/-- A successful growth yields the last block of the chain, free, with at
least the requested bytes; on an already-initialized heap the layout
invariants are preserved as well. -/
theorem increaseHeap_spec (h : Heap) (m : Nat) (ok : Bool) (hI : Heap) (na : Nat)
    (hwf : chainWF h.blocks)
    (hends : ∀ x ∈ h.blocks, BLOCK_END x ≤ h.brk)
    (hfoot : footSum h.blocks ≤ 2 ^ 61)
    (hm8 : m % HEAP_ALIGNMENT = 0) (hm0 : 0 < m) (hmB : m < 2 ^ 61)
    (hsucc : increaseHeap h m ok = (hI, some na)) :
    ∃ P bI, hI.blocks = P ++ [bI] ∧ (∀ x ∈ P, x.addr < bI.addr) ∧
      bI.addr = na ∧ BLOCK_FREE bI = true ∧ m ≤ BLOCK_SIZE bI ∧
      blockOK bI = true ∧ chainWF hI.blocks ∧ h.brk ≤ hI.brk ∧
      footSum hI.blocks ≤ footSum h.blocks + 2 * m + 2 * BLOCKHEADER_SIZE
        + HEAP_INITIAL_SIZE ∧
      (h.blocks ≠ [] →
        (∀ x ∈ hI.blocks, BLOCK_END x ≤ hI.brk) ∧
        (∀ x ∈ h.blocks, BLOCK_IN_USE x = true → x ∈ hI.blocks)) := by
  rw [increaseHeap] at hsucc
  cases hlast : h.blocks.getLast? with
  | none =>
    have hempty : h.blocks = [] := List.getLast?_eq_none_iff.mp hlast
    simp only [hlast] at hsucc
    cases ok with
    | false => simp at hsucc
    | true =>
      rw [if_pos rfl] at hsucc
      have hIeq : hI = _ := (congrArg Prod.fst hsucc).symm
      have hna : h.brk = na := by simpa using congrArg Prod.snd hsucc
      subst hIeq
      obtain ⟨hplt, hpge, hpal, hpbound⟩ := initPayload_spec m hm8 hmB
      generalize hE : ((if HEAP_INITIAL_SIZE < (m + BLOCKHEADER_SIZE) % UINTPTR_CARD
          then (m + BLOCKHEADER_SIZE) % UINTPTR_CARD * 2 % UINTPTR_CARD
          else HEAP_INITIAL_SIZE) + (UINTPTR_CARD - BLOCKHEADER_SIZE))
          % UINTPTR_CARD = E at hplt hpge hpal hpbound ⊢
      have hEM : E % IN_USE_MASK = E := Nat.mod_eq_of_lt hplt
      rw [hEM]
      have hOKb : blockOK
          { addr := h.brk, size := E, data := List.replicate E 0 } = true := by
        refine blockOK_mk ?_ ?_ ?_
        · show E < UINTPTR_CARD
          have := card_eq_two_mul_mask
          omega
        · show (List.replicate E (0 : Nat)).length = E % IN_USE_MASK
          rw [List.length_replicate, hEM]
        · show E % IN_USE_MASK % HEAP_ALIGNMENT = 0
          rw [hEM]
          exact hpal
      refine ⟨[], { addr := h.brk, size := E, data := List.replicate E 0 },
        rfl, ?_, ?_, ?_, ?_, hOKb, ?_, ?_, ?_, ?_⟩
      · simp
      · exact hna
      · exact free_of_size_lt hplt
      · show m ≤ E % IN_USE_MASK
        rw [hEM]
        exact hpge
      · refine ⟨?_, List.chain'_singleton _⟩
        intro x hx
        have hx1 : x = { addr := h.brk, size := E, data := List.replicate E 0 } := by
          simpa using hx
        rw [hx1]
        exact hOKb
      · show h.brk ≤ h.brk + HEAP_INITIAL_SIZE
        omega
      · show footSum [{ addr := h.brk, size := E, data := List.replicate E 0 }]
            ≤ footSum h.blocks + 2 * m + 2 * BLOCKHEADER_SIZE + HEAP_INITIAL_SIZE
        have h1 : footprint { addr := h.brk, size := E, data := List.replicate E 0 }
            = BLOCKHEADER_SIZE + E % IN_USE_MASK := rfl
        rw [footSum_cons, hempty, footSum_nil, h1, hEM]
        omega
      · intro hne
        exact absurd hempty hne
  | some lb =>
    obtain ⟨L, hLdec⟩ := List.getLast?_eq_some_iff.mp hlast
    simp only [hlast] at hsucc
    cases ok with
    | false => simp at hsucc
    | true =>
      rw [if_pos rfl] at hsucc
      have hcnum : UINTPTR_CARD = 18446744073709551616 := by decide
      have hBnum : BLOCKHEADER_SIZE = 24 := rfl
      have hgrow : (m + BLOCKHEADER_SIZE) % UINTPTR_CARD = m + BLOCKHEADER_SIZE := by
        apply Nat.mod_eq_of_lt
        rw [hcnum, hBnum]
        omega
      have hlbmem : lb ∈ h.blocks := by rw [hLdec]; simp
      have hOKlb := blockOK_spec (hwf.1 lb hlbmem)
      have hfdlb : footSum h.blocks = footSum L + footprint lb := by
        rw [hLdec, footSum_append, footSum_cons, footSum_nil, Nat.add_zero]
      have hpairlb := chainWF_pairwise hwf
      rw [hLdec, List.pairwise_append] at hpairlb
      by_cases hcond : BLOCK_END lb = h.brk ∧ BLOCK_FREE lb = true
      · -- the last block is free and contiguous: extend it
        rw [if_pos hcond] at hsucc
        have hIeq : hI = _ := (congrArg Prod.fst hsucc).symm
        have hna : lb.addr = na := by simpa using congrArg Prod.snd hsucc
        have hlbM : lb.size < IN_USE_MASK := size_lt_of_free hcond.2 hOKlb.1
        have hlbsz : BLOCK_SIZE lb = lb.size := Nat.mod_eq_of_lt hlbM
        have hszlb_le : BLOCKHEADER_SIZE + BLOCK_SIZE lb ≤ 2 ^ 61 := by
          rw [← footprint]
          omega
        have hMnum : IN_USE_MASK = 9223372036854775808 := by decide
        have hraw_lt : lb.size + (m + BLOCKHEADER_SIZE) < IN_USE_MASK := by
          rw [hMnum]
          rw [hBnum] at hszlb_le ⊢
          rw [← hlbsz]
          omega
        set lb2 : BlockHeader :=
          { lb with
              size := (lb.size + (m + BLOCKHEADER_SIZE)) % UINTPTR_CARD
              data := lb.data ++ List.replicate (m + BLOCKHEADER_SIZE) 0 }
          with hlb2def
        have hsz2raw : (lb.size + (m + BLOCKHEADER_SIZE)) % UINTPTR_CARD
            = lb.size + (m + BLOCKHEADER_SIZE) := by
          apply Nat.mod_eq_of_lt
          have := card_eq_two_mul_mask
          omega
        have hsz2M : lb2.size < IN_USE_MASK := by
          show (lb.size + (m + BLOCKHEADER_SIZE)) % UINTPTR_CARD < IN_USE_MASK
          rw [hsz2raw]
          exact hraw_lt
        have hsz2 : BLOCK_SIZE lb2 = BLOCK_SIZE lb + (m + BLOCKHEADER_SIZE) := by
          show (lb.size + (m + BLOCKHEADER_SIZE)) % UINTPTR_CARD % IN_USE_MASK = _
          rw [hsz2raw, Nat.mod_eq_of_lt hraw_lt, hlbsz]
        have hOKlb2 : blockOK lb2 = true := by
          refine blockOK_mk ?_ ?_ ?_
          · show (lb.size + (m + BLOCKHEADER_SIZE)) % UINTPTR_CARD < UINTPTR_CARD
            exact Nat.mod_lt _ (by decide)
          · show (lb.data ++ List.replicate (m + BLOCKHEADER_SIZE) 0).length
                = BLOCK_SIZE lb2
            rw [List.length_append, List.length_replicate, hsz2, hOKlb.2.1]
          · rw [hsz2]
            have h1 := hOKlb.2.2
            have h2 := hm8
            rw [show HEAP_ALIGNMENT = 8 from rfl] at h1 h2 ⊢
            rw [hBnum]
            omega
        have hext : extendLast h.blocks ((m + BLOCKHEADER_SIZE) % UINTPTR_CARD)
            = L ++ [lb2] := by
          rw [extendLast]
          simp only [hlast, hgrow]
          rw [hLdec, List.dropLast_concat]
        have hIblocks : hI.blocks = L ++ [lb2] := by
          rw [hIeq]
          exact hext
        have hIbrk : hI.brk = h.brk + (m + BLOCKHEADER_SIZE) := by
          rw [hIeq]
          show h.brk + (m + BLOCKHEADER_SIZE) % UINTPTR_CARD = _
          rw [hgrow]
        have haddr2 : lb2.addr = lb.addr := rfl
        refine ⟨L, lb2, hIblocks, ?_, ?_, ?_, ?_, hOKlb2, ?_, ?_, ?_, ?_⟩
        · intro x hx
          rw [haddr2]
          exact hpairlb.2.2 x hx lb (by simp)
        · rw [haddr2]; exact hna
        · exact free_of_size_lt hsz2M
        · rw [hsz2]; omega
        · rw [hIblocks]
          refine ⟨?_, ?_⟩
          · intro x hx
            rcases List.mem_append.mp hx with hxL | hx2
            · exact hwf.1 x (by rw [hLdec]; exact List.mem_append_left _ hxL)
            · have : x = lb2 := by simpa using hx2
              rw [this]; exact hOKlb2
          · have hch := hwf.2
            rw [hLdec] at hch
            exact chain_replace1 hch haddr2 (by simp)
        · rw [hIbrk]; omega
        · have h1 : footprint lb2 = BLOCKHEADER_SIZE + BLOCK_SIZE lb2 := rfl
          have h2 : footprint lb = BLOCKHEADER_SIZE + BLOCK_SIZE lb := rfl
          rw [hIblocks, footSum_append, footSum_cons, footSum_nil, h1, hsz2,
            hfdlb, h2]
          omega
        · intro hne
          constructor
          · intro x hx
            rw [hIblocks] at hx
            rcases List.mem_append.mp hx with hxL | hx2
            · have := hends x (by rw [hLdec]; exact List.mem_append_left _ hxL)
              rw [hIbrk]
              omega
            · have hx3 : x = lb2 := by simpa using hx2
              rw [hx3, BLOCK_END, haddr2, hsz2, hIbrk]
              have hElb : lb.addr + BLOCKHEADER_SIZE + BLOCK_SIZE lb = h.brk := hcond.1
              omega
          · intro x hx hxuse
            rw [hLdec] at hx
            rcases List.mem_append.mp hx with hxL | hx2
            · rw [hIblocks]
              exact List.mem_append_left _ hxL
            · exfalso
              have hx3 : x = lb := by simpa using hx2
              rw [hx3] at hxuse
              rw [free_imp_not_inuse hcond.2] at hxuse
              exact Bool.false_ne_true hxuse
      · -- the new memory starts a fresh free block at the old break
        rw [if_neg hcond] at hsucc
        have hIeq : hI = _ := (congrArg Prod.fst hsucc).symm
        have hna : h.brk = na := by simpa using congrArg Prod.snd hsucc
        have hMnum : IN_USE_MASK = 9223372036854775808 := by decide
        have hmM : m < IN_USE_MASK := by rw [hMnum]; omega
        set nB : BlockHeader :=
          { addr := h.brk, size := m,
            data := List.replicate (m % IN_USE_MASK) 0 } with hnBdef
        have hszB : BLOCK_SIZE nB = m := Nat.mod_eq_of_lt hmM
        have hOKB : blockOK nB = true := by
          refine blockOK_mk ?_ ?_ ?_
          · show m < UINTPTR_CARD
            have := card_eq_two_mul_mask
            omega
          · show (List.replicate (m % IN_USE_MASK) (0 : Nat)).length = BLOCK_SIZE nB
            rw [List.length_replicate]
            rfl
          · rw [hszB]; exact hm8
        have hIblocks : hI.blocks = h.blocks ++ [nB] := by
          rw [hIeq]
        have hIbrk : hI.brk = h.brk + (m + BLOCKHEADER_SIZE) := by
          rw [hIeq]
          show h.brk + (m + BLOCKHEADER_SIZE) % UINTPTR_CARD = _
          rw [hgrow]
        have haddrlt : ∀ x ∈ h.blocks, x.addr < nB.addr := by
          intro x hx
          have h1 := hends x hx
          have h2 : x.addr < BLOCK_END x := by
            rw [BLOCK_END, hBnum]
            omega
          show x.addr < h.brk
          omega
        refine ⟨h.blocks, nB, hIblocks, haddrlt, hna, ?_, ?_, hOKB, ?_, ?_, ?_, ?_⟩
        · exact free_of_size_lt hmM
        · rw [hszB]
        · rw [hIblocks]
          refine ⟨?_, ?_⟩
          · intro x hx
            rcases List.mem_append.mp hx with hxh | hx2
            · exact hwf.1 x hxh
            · have : x = nB := by simpa using hx2
              rw [this]; exact hOKB
          · rw [List.chain'_append]
            refine ⟨hwf.2, List.chain'_singleton _, ?_⟩
            intro u hu y hy
            have hu2 : lb = u := by
              rw [hlast] at hu
              simpa using hu
            have hy2 : nB = y := by simpa using hy
            rw [← hu2, ← hy2]
            show BLOCK_END lb ≤ h.brk
            exact hends lb hlbmem
        · rw [hIbrk]; omega
        · have h1 : footprint nB = BLOCKHEADER_SIZE + BLOCK_SIZE nB := rfl
          rw [hIblocks, footSum_append, footSum_cons, footSum_nil, h1, hszB]
          omega
        · intro hne
          constructor
          · intro x hx
            rw [hIblocks] at hx
            rcases List.mem_append.mp hx with hxh | hx2
            · have := hends x hxh
              rw [hIbrk]
              omega
            · have hx3 : x = nB := by simpa using hx2
              rw [hx3, BLOCK_END, hszB, hIbrk]
              show h.brk + BLOCKHEADER_SIZE + m ≤ h.brk + (m + BLOCKHEADER_SIZE)
              omega
          · intro x hx hxuse
            rw [hIblocks]
            exact List.mem_append_left _ hx

/-- In a well-linked chain, a block ends at or before the header of the
block that follows it. -/
theorem chain_next_bound {pre post : List BlockHeader} {b : BlockHeader}
    (hch : List.Chain' adjOK (pre ++ b :: post)) :
    ∀ y ∈ post.head?, BLOCK_END b ≤ y.addr := by
  rw [List.chain'_append] at hch
  have h2 := hch.2.1
  rw [List.chain'_cons'] at h2
  exact h2.1

/-- findFreeBlock yields the address of a chain block that is free and
large enough; the blocks searched before it form a prefix of the chain. -/
theorem findFreeBlock_decomp (bs : List BlockHeader) (t a : Nat)
    (hfind : findFreeBlock bs t = some a) :
    ∃ P Q bf, bs = P ++ bf :: Q ∧ bf.addr = a ∧ BLOCK_FREE bf = true ∧
      t ≤ BLOCK_SIZE bf := by
  induction bs with
  | nil => simp [findFreeBlock] at hfind
  | cons b rest ih =>
    rw [findFreeBlock] at hfind
    by_cases hc : BLOCK_FREE b = true ∧ t ≤ BLOCK_SIZE b
    · rw [if_pos hc] at hfind
      have ha : b.addr = a := by simpa using hfind
      exact ⟨[], rest, b, rfl, ha, hc.1, hc.2⟩
    · rw [if_neg hc] at hfind
      obtain ⟨P, Q, bf, hdec, ha, hfree, hle⟩ := ih hfind
      exact ⟨b :: P, Q, bf, by rw [hdec, List.cons_append], ha, hfree, hle⟩

/-- In a well-formed chain distinct blocks carry distinct header
addresses. -/
theorem addr_inj_of_chainWF {bs : List BlockHeader} {x y : BlockHeader}
    (h : chainWF bs) (hx : x ∈ bs) (hy : y ∈ bs) (ha : x.addr = y.addr) :
    x = y :=
  List.inj_on_of_nodup_map (chainWF_nodup h) hx hy ha

/-- Any prefix of a well-formed chain has pairwise distinct addresses. -/
theorem nodup_prefix_of_chainWF {bs P Q : List BlockHeader}
    (h : chainWF bs) (hdec : bs = P ++ Q) :
    ((P.map fun x => x.addr)).Nodup := by
  have hp := chainWF_pairwise h
  rw [hdec, List.pairwise_append] at hp
  have h2 : List.Pairwise (fun u v : Nat => u < v) (P.map fun x => x.addr) := by
    rw [List.pairwise_map]
    exact hp.1
  exact h2.imp fun hab => Nat.ne_of_lt hab

/-- getBlock on a well-formed heap, succeeding with address na: the chain
now holds an in-use block at na of at least the aligned size, the layout
invariants persist (the end-below-break bound needs an initialized arena,
the first growth being exempt from it by the recorded-size bug), and every
other in-use block survives at an address other than na. -/
theorem getBlock_spec (h : Heap) (m : Nat) (ok : Bool) (h2 : Heap) (na : Nat)
    (hwf : chainWF h.blocks)
    (hends : ∀ x ∈ h.blocks, BLOCK_END x ≤ h.brk)
    (hfoot : footSum h.blocks ≤ 2 ^ 59)
    (hm0 : 0 < m) (hmB : m < 2 ^ 60)
    (hsucc : getBlock h m ok = (h2, some na)) :
    ∃ P Q bn, h2.blocks = P ++ bn :: Q ∧ (∀ x ∈ P, x.addr ≠ na) ∧
      bn.addr = na ∧ BLOCK_IN_USE bn = true ∧
      ALIGN_SIZE m ≤ BLOCK_SIZE bn ∧ blockOK bn = true ∧
      chainWF h2.blocks ∧ h.brk ≤ h2.brk ∧
      (h.blocks ≠ [] → ∀ x ∈ h2.blocks, BLOCK_END x ≤ h2.brk) ∧
      footSum h2.blocks ≤ footSum h.blocks + 2 * ALIGN_SIZE m
        + 2 * BLOCKHEADER_SIZE + HEAP_INITIAL_SIZE ∧
      (∀ x ∈ h.blocks, BLOCK_IN_USE x = true → x ∈ h2.blocks) ∧
      (∀ x ∈ h.blocks, BLOCK_IN_USE x = true → x.addr ≠ na) := by
  obtain ⟨hmle, hmub, hm8⟩ :=
    ALIGN_SIZE_spec m (by rw [UINTPTR_CARD, HEAP_ALIGNMENT]; omega)
  have ht0 : 0 < ALIGN_SIZE m := lt_of_lt_of_le hm0 hmle
  have htB : ALIGN_SIZE m < 2 ^ 60 + 8 := by
    rw [HEAP_ALIGNMENT] at hmub
    omega
  rw [getBlock] at hsucc
  cases hfind : findFreeBlock h.blocks (ALIGN_SIZE m) with
  | some a =>
    rw [hfind] at hsucc
    obtain ⟨P0, Q0, bf, hdec, ha, hbffree, htle⟩ :=
      findFreeBlock_decomp h.blocks (ALIGN_SIZE m) a hfind
    have hna : a = na := by simpa using congrArg Prod.snd hsucc
    have hh2 : h2 = { (resizeBlock h a (ALIGN_SIZE m)).1 with
        blocks := setInUseAt (resizeBlock h a (ALIGN_SIZE m)).1.blocks a } := by
      have := congrArg Prod.fst hsucc
      simpa using this.symm
    rw [← ha] at hna hh2
    obtain ⟨w, tail, hr1, hrbrk, hwaddr, hwbit, hwsz, hwOK, hwchain, hwfoot,
      hwuse, hwends⟩ :=
      resizeBlock_spec h P0 Q0 bf (ALIGN_SIZE m) hdec hwf
        (le_trans hfoot (by norm_num)) hbffree hm8 htle ht0
    have hpair := chainWF_pairwise hwf
    rw [hdec, List.pairwise_append] at hpair
    have hP0ne : ∀ x ∈ P0, x.addr ≠ bf.addr := fun x hx =>
      Nat.ne_of_lt (hpair.2.2 x hx bf (by simp))
    have hblocks2 : h2.blocks = P0 ++ { w with size := orInUse w.size } :: tail := by
      rw [hh2]
      show setInUseAt (resizeBlock h bf.addr (ALIGN_SIZE m)).1.blocks bf.addr = _
      rw [hr1]
      exact setInUseAt_decomp P0 w tail bf.addr hP0ne hwaddr
    have hbrk2 : h2.brk = h.brk := by
      rw [hh2]
      show (resizeBlock h bf.addr (ALIGN_SIZE m)).1.brk = h.brk
      exact hrbrk
    have hOKw := blockOK_spec hwOK
    have hszeq : BLOCK_SIZE { w with size := orInUse w.size } = BLOCK_SIZE w := by
      show orInUse w.size % IN_USE_MASK = w.size % IN_USE_MASK
      exact orInUse_mod w.size
    have hbit1 : inUseBit { w with size := orInUse w.size } = 1 := by
      show orInUse w.size / IN_USE_MASK = 1
      exact orInUse_div hOKw.1
    have hEeq : BLOCK_END { w with size := orInUse w.size } = BLOCK_END w := by
      show w.addr + BLOCKHEADER_SIZE + BLOCK_SIZE { w with size := orInUse w.size }
          = w.addr + BLOCKHEADER_SIZE + BLOCK_SIZE w
      rw [hszeq]
    have hfpeq : footprint { w with size := orInUse w.size } = footprint w := by
      show BLOCKHEADER_SIZE + BLOCK_SIZE { w with size := orInUse w.size }
          = BLOCKHEADER_SIZE + BLOCK_SIZE w
      rw [hszeq]
    have hOKw2 : blockOK { w with size := orInUse w.size } = true := by
      refine blockOK_mk ?_ ?_ ?_
      · show orInUse w.size < UINTPTR_CARD
        exact orInUse_lt hOKw.1
      · show w.data.length = BLOCK_SIZE { w with size := orInUse w.size }
        rw [hszeq]
        exact hOKw.2.1
      · rw [hszeq]
        exact hOKw.2.2
    have hwfree : BLOCK_FREE w = true := by
      rw [free_iff_bit, hwbit]
      exact free_iff_bit.mp hbffree
    refine ⟨P0, tail, { w with size := orInUse w.size }, hblocks2, ?_, ?_, ?_,
      ?_, hOKw2, ?_, ?_, ?_, ?_, ?_, ?_⟩
    · intro x hx
      rw [← hna]
      exact hP0ne x hx
    · show w.addr = na
      rw [hwaddr]
      exact hna
    · show (inUseBit { w with size := orInUse w.size } == 1) = true
      rw [hbit1]
      rfl
    · rw [hszeq]
      exact hwsz
    · rw [hblocks2]
      constructor
      · intro x hx
        rcases List.mem_append.mp hx with hxP | hxw
        · exact hwchain.1 x (List.mem_append_left _ hxP)
        · rcases List.mem_cons.mp hxw with hx1 | hxt
          · rw [hx1]
            exact hOKw2
          · exact hwchain.1 x (List.mem_append_right _ (List.mem_cons_of_mem _ hxt))
      · refine chain_replace1 hwchain.2 rfl ?_
        intro y hy
        rw [hEeq]
        exact chain_next_bound hwchain.2 y hy
    · rw [hbrk2]
    · intro hne x hx
      rw [hblocks2] at hx
      rw [hbrk2]
      rcases List.mem_append.mp hx with hxP | hxw
      · exact hwends h.brk hends x (List.mem_append_left _ hxP)
      · rcases List.mem_cons.mp hxw with hx1 | hxt
        · rw [hx1, hEeq]
          exact hwends h.brk hends w (by simp)
        · exact hwends h.brk hends x (List.mem_append_right _ (List.mem_cons_of_mem _ hxt))
    · rw [hblocks2, footSum_append, footSum_cons, hfpeq]
      have h1 : footSum P0 + (footprint w + footSum tail) = footSum h.blocks := by
        rw [← footSum_cons, ← footSum_append]
        exact hwfoot
      omega
    · intro x hx hxuse
      have hx2 := hwuse x hx hxuse
      rw [hblocks2]
      rcases List.mem_append.mp hx2 with hxP | hxw
      · exact List.mem_append_left _ hxP
      · rcases List.mem_cons.mp hxw with hx1 | hxt
        · exfalso
          rw [hx1] at hxuse
          rw [free_imp_not_inuse hwfree] at hxuse
          exact Bool.false_ne_true hxuse
        · exact List.mem_append_right _ (List.mem_cons_of_mem _ hxt)
    · intro x hx hxuse heqa
      have hbfmem : bf ∈ h.blocks := by rw [hdec]; simp
      have hxbf : x = bf :=
        addr_inj_of_chainWF hwf hx hbfmem (heqa.trans hna.symm)
      rw [hxbf, free_imp_not_inuse hbffree] at hxuse
      exact Bool.false_ne_true hxuse
  | none =>
    rw [hfind] at hsucc
    rcases hinc : increaseHeap h (ALIGN_SIZE m) ok with ⟨hI, og⟩
    cases og with
    | none =>
      rw [hinc] at hsucc
      simp at hsucc
    | some a =>
      rw [hinc] at hsucc
      have hna : a = na := by simpa using congrArg Prod.snd hsucc
      have hh2 : h2 = { (resizeBlock hI a (ALIGN_SIZE m)).1 with
          blocks := setInUseAt (resizeBlock hI a (ALIGN_SIZE m)).1.blocks a } := by
        have := congrArg Prod.fst hsucc
        simpa using this.symm
      obtain ⟨P, bI, hIdec, hPlt, hbIaddr, hbIfree, hbIge, hbIOK, hIwf, hbrkle,
        hIfoot, hcond⟩ :=
        increaseHeap_spec h (ALIGN_SIZE m) ok hI a hwf hends
          (le_trans hfoot (by norm_num)) hm8 ht0 (by omega) hinc
      rw [← hbIaddr] at hna hh2
      have hIfoot2 : footSum hI.blocks ≤ 2 ^ 62 := by
        rw [show BLOCKHEADER_SIZE = 24 from rfl,
          show HEAP_INITIAL_SIZE = 1048576 by decide] at hIfoot
        omega
      obtain ⟨w, tail, hr1, hrbrk, hwaddr, hwbit, hwsz, hwOK, hwchain, hwfoot,
        hwuse, hwends⟩ :=
        resizeBlock_spec hI P [] bI (ALIGN_SIZE m) hIdec hIwf hIfoot2
          hbIfree hm8 hbIge ht0
      have hPne : ∀ x ∈ P, x.addr ≠ bI.addr := fun x hx => Nat.ne_of_lt (hPlt x hx)
      have hblocks2 : h2.blocks = P ++ { w with size := orInUse w.size } :: tail := by
        rw [hh2]
        show setInUseAt (resizeBlock hI bI.addr (ALIGN_SIZE m)).1.blocks bI.addr = _
        rw [hr1]
        exact setInUseAt_decomp P w tail bI.addr hPne hwaddr
      have hbrk2 : h2.brk = hI.brk := by
        rw [hh2]
        show (resizeBlock hI bI.addr (ALIGN_SIZE m)).1.brk = hI.brk
        exact hrbrk
      have hOKw := blockOK_spec hwOK
      have hszeq : BLOCK_SIZE { w with size := orInUse w.size } = BLOCK_SIZE w := by
        show orInUse w.size % IN_USE_MASK = w.size % IN_USE_MASK
        exact orInUse_mod w.size
      have hbit1 : inUseBit { w with size := orInUse w.size } = 1 := by
        show orInUse w.size / IN_USE_MASK = 1
        exact orInUse_div hOKw.1
      have hEeq : BLOCK_END { w with size := orInUse w.size } = BLOCK_END w := by
        show w.addr + BLOCKHEADER_SIZE + BLOCK_SIZE { w with size := orInUse w.size }
            = w.addr + BLOCKHEADER_SIZE + BLOCK_SIZE w
        rw [hszeq]
      have hfpeq : footprint { w with size := orInUse w.size } = footprint w := by
        show BLOCKHEADER_SIZE + BLOCK_SIZE { w with size := orInUse w.size }
            = BLOCKHEADER_SIZE + BLOCK_SIZE w
        rw [hszeq]
      have hOKw2 : blockOK { w with size := orInUse w.size } = true := by
        refine blockOK_mk ?_ ?_ ?_
        · show orInUse w.size < UINTPTR_CARD
          exact orInUse_lt hOKw.1
        · show w.data.length = BLOCK_SIZE { w with size := orInUse w.size }
          rw [hszeq]
          exact hOKw.2.1
        · rw [hszeq]
          exact hOKw.2.2
      have hwfree : BLOCK_FREE w = true := by
        rw [free_iff_bit, hwbit]
        exact free_iff_bit.mp hbIfree
      refine ⟨P, tail, { w with size := orInUse w.size }, hblocks2, ?_, ?_, ?_,
        ?_, hOKw2, ?_, ?_, ?_, ?_, ?_, ?_⟩
      · intro x hx
        rw [← hna]
        exact hPne x hx
      · show w.addr = na
        rw [hwaddr]
        exact hna
      · show (inUseBit { w with size := orInUse w.size } == 1) = true
        rw [hbit1]
        rfl
      · rw [hszeq]
        exact hwsz
      · rw [hblocks2]
        constructor
        · intro x hx
          rcases List.mem_append.mp hx with hxP | hxw
          · exact hwchain.1 x (List.mem_append_left _ hxP)
          · rcases List.mem_cons.mp hxw with hx1 | hxt
            · rw [hx1]
              exact hOKw2
            · exact hwchain.1 x (List.mem_append_right _ (List.mem_cons_of_mem _ hxt))
        · refine chain_replace1 hwchain.2 rfl ?_
          intro y hy
          rw [hEeq]
          exact chain_next_bound hwchain.2 y hy
      · rw [hbrk2]
        exact hbrkle
      · intro hne x hx
        obtain ⟨hIends, -⟩ := hcond hne
        rw [hblocks2] at hx
        rw [hbrk2]
        rcases List.mem_append.mp hx with hxP | hxw
        · exact hwends hI.brk hIends x (List.mem_append_left _ hxP)
        · rcases List.mem_cons.mp hxw with hx1 | hxt
          · rw [hx1, hEeq]
            exact hwends hI.brk hIends w (by simp)
          · exact hwends hI.brk hIends x
              (List.mem_append_right _ (List.mem_cons_of_mem _ hxt))
      · rw [hblocks2, footSum_append, footSum_cons, hfpeq]
        have h1 : footSum P + (footprint w + footSum tail) = footSum hI.blocks := by
          rw [← footSum_cons, ← footSum_append]
          exact hwfoot
        omega
      · intro x hx hxuse
        obtain ⟨-, hIuse⟩ := hcond (List.ne_nil_of_mem hx)
        have hx1 := hIuse x hx hxuse
        have hx2 := hwuse x hx1 hxuse
        rw [hblocks2]
        rcases List.mem_append.mp hx2 with hxP | hxw
        · exact List.mem_append_left _ hxP
        · rcases List.mem_cons.mp hxw with hx1 | hxt
          · exfalso
            rw [hx1] at hxuse
            rw [free_imp_not_inuse hwfree] at hxuse
            exact Bool.false_ne_true hxuse
          · exact List.mem_append_right _ (List.mem_cons_of_mem _ hxt)
      · intro x hx hxuse heqa
        obtain ⟨-, hIuse⟩ := hcond (List.ne_nil_of_mem hx)
        have hx1 := hIuse x hx hxuse
        have hbImem : bI ∈ hI.blocks := by rw [hIdec]; simp
        have hxbI : x = bI :=
          addr_inj_of_chainWF hIwf hx1 hbImem (heqa.trans hna.symm)
        rw [hxbI, free_imp_not_inuse hbIfree] at hxuse
        exact Bool.false_ne_true hxuse

/-- Bytes the zeroing loop of my_calloc writes on an aligned payload: with
HEAP_ALIGNMENT dividing the size the word loop covers the payload exactly
and stops at BLOCK_END. -/
theorem callocZeroExtent_of_aligned {s : Nat} (hs : s % HEAP_ALIGNMENT = 0) :
    callocZeroExtent s = s := by
  rw [callocZeroExtent]
  rw [show HEAP_ALIGNMENT = 8 from rfl] at hs ⊢
  omega

/-- A heap with a single free 64-byte block, used for claim C9. -/
def c9Heap : Heap :=
  { blocks := [{ addr := 4096, size := 64, data := List.replicate 64 0 }],
    brk := 4184 }

/-- Counterexample to claim C9: my_calloc with count = 2^64 - 1 and size = 1
succeeds (the size_t product is 2^64 - 1, nonzero), but the returned block
holds 0 payload bytes: ALIGN_SIZE wraps 2^64 - 1 to 0 in the size type, the
block is shrunk to payload size 0, and not one of the first count*size
bytes exists, let alone reads back as zero. -/
theorem calloc_zero_fill_cex :
    ((2 ^ 64 - 1) * 1) % UINTPTR_CARD = 2 ^ 64 - 1 ∧
    (my_calloc c9Heap (2 ^ 64 - 1) 1 true).2 = some 4120 ∧
    (∀ b ∈ (my_calloc c9Heap (2 ^ 64 - 1) 1 true).1.blocks,
      b.addr + BLOCKHEADER_SIZE = 4120 → BLOCK_SIZE b = 0 ∧ b.data = []) := by
  decide

/-- Claim C9 (amended): for every successful my_calloc whose size_t product
count*size is below 2^60 (no wrap through the product or the alignment),
on any well-formed arena state including the uninitialized one, the
returned pointer is backed by an in-use block whose whole payload - at
least count*size bytes, the aligned block size - is zero, and the
word-sized zeroing loop writes exactly the payload, never past BLOCK_END. -/
theorem calloc_zero_fill_spec (h : Heap) (num size : Nat) (ok : Bool)
    (h2 : Heap) (p : Nat)
    (hwf : chainWF h.blocks)
    (hends : ∀ x ∈ h.blocks, BLOCK_END x ≤ h.brk)
    (hfoot : footSum h.blocks ≤ 2 ^ 59)
    (hT0 : 0 < (num * size) % UINTPTR_CARD)
    (hTB : (num * size) % UINTPTR_CARD < 2 ^ 60)
    (hsucc : my_calloc h num size ok = (h2, some p)) :
    ∃ P Q bn, h2.blocks = P ++ bn :: Q ∧
      p = bn.addr + BLOCKHEADER_SIZE ∧
      BLOCK_IN_USE bn = true ∧
      (num * size) % UINTPTR_CARD ≤ BLOCK_SIZE bn ∧
      bn.data = List.replicate (BLOCK_SIZE bn) 0 ∧
      callocZeroExtent (BLOCK_SIZE bn) = BLOCK_SIZE bn := by
  rw [my_calloc] at hsucc
  rw [if_neg (by omega)] at hsucc
  rcases hgb : getBlock h ((num * size) % UINTPTR_CARD) ok with ⟨h1, og⟩
  cases og with
  | none =>
    rw [hgb] at hsucc
    simp at hsucc
  | some a =>
    rw [hgb] at hsucc
    have hp : a + BLOCKHEADER_SIZE = p := by simpa using congrArg Prod.snd hsucc
    have hh2 : h2 = { h1 with blocks := zeroFillAt h1.blocks a } := by
      have := congrArg Prod.fst hsucc
      simpa using this.symm
    obtain ⟨P, Q, bn, hdec, hPne, hbaddr, hbuse, hble, hbOK, hwf2, -, -, -, -, -⟩ :=
      getBlock_spec h ((num * size) % UINTPTR_CARD) ok h1 a hwf hends hfoot
        hT0 hTB hgb
    obtain ⟨hmle, -, -⟩ := ALIGN_SIZE_spec ((num * size) % UINTPTR_CARD)
      (by rw [UINTPTR_CARD, HEAP_ALIGNMENT]; rw [UINTPTR_CARD] at hTB; omega)
    have hOKbn := blockOK_spec hbOK
    have hblocks2 : h2.blocks
        = P ++ { bn with data := List.replicate (BLOCK_SIZE bn) 0 } :: Q := by
      rw [hh2]
      show zeroFillAt h1.blocks a = _
      rw [hdec]
      exact zeroFillAt_decomp P bn Q a hPne hbaddr
    refine ⟨P, Q, { bn with data := List.replicate (BLOCK_SIZE bn) 0 },
      hblocks2, ?_, ?_, ?_, ?_, ?_⟩
    · show p = bn.addr + BLOCKHEADER_SIZE
      rw [hbaddr]
      exact hp.symm
    · show BLOCK_IN_USE bn = true
      exact hbuse
    · show (num * size) % UINTPTR_CARD ≤ BLOCK_SIZE bn
      exact le_trans hmle hble
    · show List.replicate (BLOCK_SIZE bn) 0 = List.replicate (BLOCK_SIZE bn) 0
      rfl
    · show callocZeroExtent (BLOCK_SIZE bn) = BLOCK_SIZE bn
      exact callocZeroExtent_of_aligned hOKbn.2.2

/-- Witness for the amended claim C9: my_calloc c9Heap 3 5 true allocates
16 aligned bytes at 4096 and zero-fills them. -/
theorem calloc_zero_fill_spec_witness :
    ∃ P Q bn, (my_calloc c9Heap 3 5 true).1.blocks = P ++ bn :: Q ∧
      4120 = bn.addr + BLOCKHEADER_SIZE ∧
      BLOCK_IN_USE bn = true ∧
      (3 * 5) % UINTPTR_CARD ≤ BLOCK_SIZE bn ∧
      bn.data = List.replicate (BLOCK_SIZE bn) 0 ∧
      callocZeroExtent (BLOCK_SIZE bn) = BLOCK_SIZE bn :=
  calloc_zero_fill_spec c9Heap 3 5 true (my_calloc c9Heap 3 5 true).1 4120
    ⟨by decide, List.chain'_singleton _⟩ (by decide) (by decide)
    (by decide) (by decide) (by decide)

/-- A heap with an in-use 8-byte block (payload 1..8), a free 8-byte block
and a free 160-byte block, used for claim C3. -/
def c3Heap : Heap :=
  { blocks :=
      [{ addr := 4096, size := 2 ^ 63 + 8, data := [1, 2, 3, 4, 5, 6, 7, 8] },
       { addr := 4128, size := 8, data := [101, 102, 103, 104, 105, 106, 107, 108] },
       { addr := 4160, size := 160, data := List.replicate 160 7 }]
    brk := 4344 }

/-- Counterexample to claim C3: moving the 8-byte block at 4096 to 104
bytes copies more than min(8, 104) = 8 bytes: the failed in-place attempt
leaves the old block grown to 40 bytes (free follower absorbed) and the
code memcpy-s all 40, so byte 32 of the new payload reads 101 (a byte of
the absorbed follower) where the destination block previously held 7. -/
theorem realloc_copy_beyond_min_cex :
    (my_realloc c3Heap (some 4120) 104 true).2 = some 4184 ∧
    (∀ x ∈ c3Heap.blocks, x.addr = 4160 → x.data.get? 32 = some 7) ∧
    (∀ x ∈ (my_realloc c3Heap (some 4120) 104 true).1.blocks,
      x.addr = 4160 → BLOCK_IN_USE x = true ∧ x.data.get? 32 = some 101) ∧
    min (BLOCK_SIZE { addr := 4096, size := 2 ^ 63 + 8,
                      data := [1, 2, 3, 4, 5, 6, 7, 8] }) 104 = 8 ∧
    (8 : Nat) ≤ 32 := by
  refine ⟨by decide, by decide, by decide, by decide, by decide⟩

/-- Claim C3 (amended): when my_realloc cannot resize in place and the
fallback allocation succeeds, the bytes copied into the new block are
exactly the payload of the old block as the failed in-place attempt left
it - BLOCK_SIZE of the block after the speculative forward join, which is
at least the original payload (the original bytes form its prefix) and may
exceed min(old size, new size), yet stays below the aligned target and so
fits the new block; the old block is then released and the new payload
pointer is returned. -/
theorem realloc_move_spec (h : Heap) (P Q : List BlockHeader) (b : BlockHeader)
    (p size : Nat) (ok : Bool) (h2 : Heap) (na : Nat)
    (hwf : chainWF h.blocks)
    (hends : ∀ x ∈ h.blocks, BLOCK_END x ≤ h.brk)
    (hfoot : footSum h.blocks ≤ 2 ^ 59)
    (hdec : h.blocks = P ++ b :: Q)
    (hb : b.addr = p - BLOCKHEADER_SIZE)
    (hbuse : BLOCK_IN_USE b = true)
    (hs0 : 0 < size) (hsB : size < 2 ^ 58)
    (hfail : (resizeBlock h (p - BLOCKHEADER_SIZE) size).2 = 0)
    (hgb : getBlock (resizeBlock h (p - BLOCKHEADER_SIZE) size).1 size ok
      = (h2, some na)) :
    ∃ w0 bn P2 Q2,
      lookupBlock h2.blocks (p - BLOCKHEADER_SIZE) = some w0 ∧
      w0.addr = p - BLOCKHEADER_SIZE ∧
      BLOCK_IN_USE w0 = true ∧
      BLOCK_SIZE b ≤ BLOCK_SIZE w0 ∧
      BLOCK_SIZE w0 < ALIGN_SIZE size ∧
      b.data <+: w0.data ∧
      h2.blocks = P2 ++ bn :: Q2 ∧ bn.addr = na ∧
      na ≠ p - BLOCKHEADER_SIZE ∧
      BLOCK_IN_USE bn = true ∧ ALIGN_SIZE size ≤ BLOCK_SIZE bn ∧
      my_realloc h (some p) size ok
        = (freeBlock { h2 with
                       blocks := copyInto h2.blocks na
                         (w0.data.take (BLOCK_SIZE w0)) } (p - BLOCKHEADER_SIZE),
           some (na + BLOCKHEADER_SIZE)) ∧
      copyInto h2.blocks na (w0.data.take (BLOCK_SIZE w0))
        = P2 ++ { bn with
                  data := w0.data.take (BLOCK_SIZE w0)
                    ++ bn.data.drop (BLOCK_SIZE w0) } :: Q2 ∧
      (w0.data.take (BLOCK_SIZE w0)).length = BLOCK_SIZE w0 ∧
      (∃ w ∈ (my_realloc h (some p) size ok).1.blocks,
        BLOCK_FREE w = true ∧ w.addr ≤ p - BLOCKHEADER_SIZE ∧
        p - BLOCKHEADER_SIZE < BLOCK_END w) := by
  have hbmem : b ∈ h.blocks := by rw [hdec]; simp
  have hOKb := blockOK_spec (hwf.1 b hbmem)
  have hpair := chainWF_pairwise hwf
  rw [hdec, List.pairwise_append] at hpair
  have hpre : ∀ x ∈ P, x.addr ≠ p - BLOCKHEADER_SIZE := by
    intro x hx
    rw [← hb]
    exact Nat.ne_of_lt (hpair.2.2 x hx b (by simp))
  have hfd : footSum h.blocks = footSum P + (footprint b + footSum Q) := by
    rw [hdec, footSum_append, footSum_cons]
  have hsum : ∀ c ∈ Q.head?,
      BLOCK_SIZE b + (BLOCKHEADER_SIZE + BLOCK_SIZE c) < IN_USE_MASK := by
    intro c hcmem
    cases Q with
    | nil => simp at hcmem
    | cons c2 post2 =>
      have hc2 : c2 = c := by simpa using hcmem
      subst hc2
      rw [footSum_cons, footprint, footprint] at hfd
      have hM : (2 : Nat) ^ 59 < IN_USE_MASK := by decide
      omega
  have hlenc : ∀ c ∈ Q.head?, c.data.length = BLOCK_SIZE c := by
    intro c hcmem
    cases Q with
    | nil => simp at hcmem
    | cons c2 post2 =>
      have hc2 : c2 = c := by simpa using hcmem
      subst hc2
      exact (blockOK_spec (hwf.1 c2 (by rw [hdec]; simp))).2.1
  obtain ⟨w0, tail, hw1, hw2, hw0addr, hw0bit, hw064, hw0ge, hw0prefix, hw0len,
    hw0foot, hcase⟩ :=
    joinBWF_outcome P b Q (p - BLOCKHEADER_SIZE) hpre hb hOKb.1 hOKb.2.1
      hsum hlenc
  obtain ⟨hres1, hjlt⟩ := resizeBlock_fail_eq h (p - BLOCKHEADER_SIZE) size hs0
    (by omega) hfail
  have hjoin1 : (joinBlockWithFollower h.blocks (p - BLOCKHEADER_SIZE)).1
      = P ++ w0 :: tail := by
    rw [hdec]
    exact hw1
  have hjlt2 : BLOCK_SIZE w0 < ALIGN_SIZE size := by
    rw [hdec] at hjlt
    rw [hw2] at hjlt
    exact hjlt
  have hh1 : (resizeBlock h (p - BLOCKHEADER_SIZE) size).1
      = { h with blocks := P ++ w0 :: tail } := by
    rw [hres1, hjoin1]
  have hmemQ : ∀ x ∈ tail, x ∈ Q := by
    intro x hxt
    rcases hcase with ⟨-, htail⟩ | ⟨c, post2, hQ, htail, -, -, -⟩
    · rw [← htail]
      exact hxt
    · rw [hQ]
      rw [htail] at hxt
      exact List.mem_cons_of_mem _ hxt
  have hOKw0 : blockOK w0 = true := by
    refine blockOK_mk hw064 hw0len ?_
    rcases hcase with ⟨hwb, -⟩ | ⟨c, post2, hQ, -, -, -, hfpw⟩
    · rw [hwb]
      exact hOKb.2.2
    · have hOKc := blockOK_spec (hwf.1 c (by rw [hdec, hQ]; simp))
      rw [footprint, footprint, footprint] at hfpw
      have h1 := hOKb.2.2
      have h2 := hOKc.2.2
      rw [show HEAP_ALIGNMENT = 8 from rfl] at h1 h2 ⊢
      rw [show BLOCKHEADER_SIZE = 24 from rfl] at hfpw
      omega
  have hwf1 : chainWF (P ++ w0 :: tail) := by
    constructor
    · intro x hx
      rcases List.mem_append.mp hx with hxP | hxw
      · exact hwf.1 x (by rw [hdec]; exact List.mem_append_left _ hxP)
      · rcases List.mem_cons.mp hxw with hx1 | hxt
        · rw [hx1]
          exact hOKw0
        · refine hwf.1 x ?_
          rw [hdec]
          exact List.mem_append_right _ (List.mem_cons_of_mem _ (hmemQ x hxt))
    · have hch := hwf.2
      rw [hdec] at hch
      rcases hcase with ⟨hwb, htail⟩ | ⟨c, post2, hQ, htail, -, hEw, -⟩
      · rw [hwb, htail]
        exact hch
      · rw [htail]
        rw [hQ] at hch
        refine chain_merge2 hch (by rw [hw0addr, hb]) ?_
        intro y hy
        rw [hEw]
        have hch2 : List.Chain' adjOK ((P ++ [b]) ++ c :: post2) := by
          rw [List.append_assoc]
          simpa using hch
        exact chain_next_bound hch2 y hy
  have hends1 : ∀ x ∈ P ++ w0 :: tail, BLOCK_END x ≤ h.brk := by
    intro x hx
    rcases List.mem_append.mp hx with hxP | hxw
    · exact hends x (by rw [hdec]; exact List.mem_append_left _ hxP)
    · rcases List.mem_cons.mp hxw with hx1 | hxt
      · rw [hx1]
        rcases hcase with ⟨hwb, -⟩ | ⟨c, post2, hQ, -, -, hEw, -⟩
        · rw [hwb]
          exact hends b hbmem
        · rw [hEw]
          exact hends c (by rw [hdec, hQ]; simp)
      · refine hends x ?_
        rw [hdec]
        exact List.mem_append_right _ (List.mem_cons_of_mem _ (hmemQ x hxt))
  have hfoot1 : footSum (P ++ w0 :: tail) ≤ 2 ^ 59 := by
    rw [hw0foot, ← hdec]
    exact hfoot
  have hgb1 := hgb
  rw [hh1] at hgb1
  obtain ⟨P2, Q2, bn, hdec2, hP2ne, hbnaddr, hbnuse, hbnsz, hbnOK, hwf2,
    hbrk2le, hends2, hfoot2, husep, hnotna⟩ :=
    getBlock_spec { h with blocks := P ++ w0 :: tail } size ok h2 na
      hwf1 hends1 hfoot1 hs0 (by omega) hgb1
  have hbit1 : inUseBit b = 1 := by
    rw [BLOCK_IN_USE] at hbuse
    simpa using hbuse
  have hw0use : BLOCK_IN_USE w0 = true := by
    rw [BLOCK_IN_USE, hw0bit, hbit1]
    rfl
  have hw0mem1 : w0 ∈ P ++ w0 :: tail := by simp
  have hw0mem2 : w0 ∈ h2.blocks := husep w0 hw0mem1 hw0use
  have hnena : na ≠ p - BLOCKHEADER_SIZE := by
    intro hcontra
    exact hnotna w0 hw0mem1 hw0use (hw0addr.trans hcontra.symm)
  obtain ⟨P3, Q3, hdec3, hP3lt, -⟩ := mem_decomp_of_chainWF hwf2 hw0mem2
  have hlook : lookupBlock h2.blocks (p - BLOCKHEADER_SIZE) = some w0 := by
    rw [hdec3]
    refine lookupBlock_decomp P3 w0 Q3 _ ?_ hw0addr
    intro x hx
    rw [← hw0addr]
    exact Nat.ne_of_lt (hP3lt x hx)
  have hlen2 : (w0.data.take (BLOCK_SIZE w0)).length = BLOCK_SIZE w0 := by
    rw [List.length_take, hw0len]
    exact Nat.min_self _
  have heq : my_realloc h (some p) size ok
      = (freeBlock { h2 with
                     blocks := copyInto h2.blocks na
                       (w0.data.take (BLOCK_SIZE w0)) } (p - BLOCKHEADER_SIZE),
         some (na + BLOCKHEADER_SIZE)) := by
    simp only [my_realloc]
    rw [if_neg (show ¬ size = 0 by omega)]
    rw [if_neg (show ¬ 0 < (resizeBlock h (p - BLOCKHEADER_SIZE) size).2 by
      rw [hfail]
      omega)]
    rw [hgb]
    simp only [hlook]
  have hcopy : copyInto h2.blocks na (w0.data.take (BLOCK_SIZE w0))
      = P2 ++ { bn with
                data := w0.data.take (BLOCK_SIZE w0)
                  ++ bn.data.drop (BLOCK_SIZE w0) } :: Q2 := by
    rw [hdec2]
    have hd := copyInto_decomp P2 bn Q2 na (w0.data.take (BLOCK_SIZE w0))
      hP2ne hbnaddr
    rw [hd, hlen2]
  -- the copied bytes fit: the new block is at least the aligned target
  have hOKbn := blockOK_spec hbnOK
  have hfits : BLOCK_SIZE w0 ≤ BLOCK_SIZE bn := le_of_lt (lt_of_lt_of_le hjlt2 hbnsz)
  -- the heap after the copy, still well formed
  have hlen3 : (w0.data.take (BLOCK_SIZE w0) ++ bn.data.drop (BLOCK_SIZE w0)).length
      = BLOCK_SIZE bn := by
    rw [List.length_append, hlen2, List.length_drop, hOKbn.2.1]
    omega
  have hOKbn2 : blockOK { bn with
      data := w0.data.take (BLOCK_SIZE w0)
        ++ bn.data.drop (BLOCK_SIZE w0) } = true := by
    refine blockOK_mk ?_ ?_ ?_
    · show bn.size < UINTPTR_CARD
      exact hOKbn.1
    · show (w0.data.take (BLOCK_SIZE w0) ++ bn.data.drop (BLOCK_SIZE w0)).length
          = BLOCK_SIZE bn
      exact hlen3
    · show BLOCK_SIZE bn % HEAP_ALIGNMENT = 0
      exact hOKbn.2.2
  have hwf3 : chainWF (P2 ++ { bn with
      data := w0.data.take (BLOCK_SIZE w0)
        ++ bn.data.drop (BLOCK_SIZE w0) } :: Q2) := by
    constructor
    · intro x hx
      rcases List.mem_append.mp hx with hxP | hxw
      · exact hwf2.1 x (by rw [hdec2]; exact List.mem_append_left _ hxP)
      · rcases List.mem_cons.mp hxw with hx1 | hxt
        · rw [hx1]
          exact hOKbn2
        · refine hwf2.1 x ?_
          rw [hdec2]
          exact List.mem_append_right _ (List.mem_cons_of_mem _ hxt)
    · have hch := hwf2.2
      rw [hdec2] at hch
      refine chain_replace1 hch rfl ?_
      intro y hy
      show BLOCK_END bn ≤ y.addr
      exact chain_next_bound hch y hy
  have hw0mem3 : w0 ∈ P2 ++ { bn with
      data := w0.data.take (BLOCK_SIZE w0)
        ++ bn.data.drop (BLOCK_SIZE w0) } :: Q2 := by
    have hw0ne : w0 ≠ bn := by
      intro hcontra
      apply hnena
      rw [← hbnaddr, ← hcontra, hw0addr]
    rw [hdec2] at hw0mem2
    rcases List.mem_append.mp hw0mem2 with hxP | hxw
    · exact List.mem_append_left _ hxP
    · rcases List.mem_cons.mp hxw with hx1 | hxt
      · exact absurd hx1 hw0ne
      · exact List.mem_append_right _ (List.mem_cons_of_mem _ hxt)
  obtain ⟨P4, Q4, hdec4, hP4lt, -⟩ := mem_decomp_of_chainWF hwf3 hw0mem3
  have hfree : ∃ w ∈ (freeBlock { h2 with
      blocks := copyInto h2.blocks na
        (w0.data.take (BLOCK_SIZE w0)) } (p - BLOCKHEADER_SIZE)).blocks,
      BLOCK_FREE w = true ∧ w.addr ≤ p - BLOCKHEADER_SIZE ∧
      p - BLOCKHEADER_SIZE < BLOCK_END w := by
    refine freeBlock_frees _ P4 Q4 w0 (p - BLOCKHEADER_SIZE) ?_ ?_ hw0addr ?_ ?_ ?_ ?_
    · show copyInto h2.blocks na (w0.data.take (BLOCK_SIZE w0)) = P4 ++ w0 :: Q4
      rw [hcopy]
      exact hdec4
    · intro x hx
      rw [← hw0addr]
      exact Nat.ne_of_lt (hP4lt x hx)
    · exact nodup_prefix_of_chainWF hwf3 hdec4
    · intro x hx
      rw [show ({ h2 with
            blocks := copyInto h2.blocks na
              (w0.data.take (BLOCK_SIZE w0)) } : Heap).blocks
          = copyInto h2.blocks na (w0.data.take (BLOCK_SIZE w0)) from rfl,
        hcopy] at hx
      exact (blockOK_spec (hwf3.1 x hx)).1
    · intro x hx
      rw [show ({ h2 with
            blocks := copyInto h2.blocks na
              (w0.data.take (BLOCK_SIZE w0)) } : Heap).blocks
          = copyInto h2.blocks na (w0.data.take (BLOCK_SIZE w0)) from rfl,
        hcopy] at hx
      exact (blockOK_spec (hwf3.1 x hx)).2.1
    · show footSum (copyInto h2.blocks na (w0.data.take (BLOCK_SIZE w0))) < 2 ^ 62
      rw [hcopy, footSum_append, footSum_cons]
      have hfp : footprint { bn with
          data := w0.data.take (BLOCK_SIZE w0)
            ++ bn.data.drop (BLOCK_SIZE w0) } = footprint bn := rfl
      rw [hfp]
      have hsplit : footSum P2 + (footprint bn + footSum Q2) = footSum h2.blocks := by
        rw [hdec2, footSum_append, footSum_cons]
      have hproj : footSum ({ h with blocks := P ++ w0 :: tail } : Heap).blocks
          = footSum (P ++ w0 :: tail) := rfl
      rw [hproj, hw0foot, ← hdec] at hfoot2
      obtain ⟨-, haub, -⟩ := ALIGN_SIZE_spec size
        (by rw [UINTPTR_CARD, HEAP_ALIGNMENT]; omega)
      rw [show HEAP_ALIGNMENT = 8 from rfl] at haub
      rw [show BLOCKHEADER_SIZE = 24 from rfl,
        show HEAP_INITIAL_SIZE = 1048576 by decide] at hfoot2
      omega
  refine ⟨w0, bn, P2, Q2, hlook, hw0addr, hw0use, hw0ge, hjlt2, hw0prefix,
    hdec2, hbnaddr, hnena, hbnuse, hbnsz, heq, hcopy, hlen2, ?_⟩
  rw [heq]
  exact hfree

set_option maxRecDepth 10000 in
/-- Witness for the amended claim C3 on c3Heap: the move to 104 bytes
copies the 40-byte joined old block into the fresh 104-byte block at 4160,
frees the old region and returns 4184. -/
theorem realloc_move_spec_witness :
    ∃ w0 bn P2 Q2,
      lookupBlock (getBlock (resizeBlock c3Heap (4120 - BLOCKHEADER_SIZE) 104).1
          104 true).1.blocks (4120 - BLOCKHEADER_SIZE) = some w0 ∧
      w0.addr = 4120 - BLOCKHEADER_SIZE ∧
      BLOCK_IN_USE w0 = true ∧
      BLOCK_SIZE { addr := 4096, size := 2 ^ 63 + 8,
                   data := [1, 2, 3, 4, 5, 6, 7, 8] } ≤ BLOCK_SIZE w0 ∧
      BLOCK_SIZE w0 < ALIGN_SIZE 104 ∧
      ([1, 2, 3, 4, 5, 6, 7, 8] : List Nat) <+: w0.data ∧
      (getBlock (resizeBlock c3Heap (4120 - BLOCKHEADER_SIZE) 104).1
          104 true).1.blocks = P2 ++ bn :: Q2 ∧ bn.addr = 4160 ∧
      (4160 : Nat) ≠ 4120 - BLOCKHEADER_SIZE ∧
      BLOCK_IN_USE bn = true ∧ ALIGN_SIZE 104 ≤ BLOCK_SIZE bn ∧
      my_realloc c3Heap (some 4120) 104 true
        = (freeBlock { (getBlock (resizeBlock c3Heap
                         (4120 - BLOCKHEADER_SIZE) 104).1 104 true).1 with
                       blocks := copyInto (getBlock (resizeBlock c3Heap
                         (4120 - BLOCKHEADER_SIZE) 104).1 104 true).1.blocks 4160
                         (w0.data.take (BLOCK_SIZE w0)) } (4120 - BLOCKHEADER_SIZE),
           some (4160 + BLOCKHEADER_SIZE)) ∧
      copyInto (getBlock (resizeBlock c3Heap (4120 - BLOCKHEADER_SIZE) 104).1
          104 true).1.blocks 4160 (w0.data.take (BLOCK_SIZE w0))
        = P2 ++ { bn with
                  data := w0.data.take (BLOCK_SIZE w0)
                    ++ bn.data.drop (BLOCK_SIZE w0) } :: Q2 ∧
      (w0.data.take (BLOCK_SIZE w0)).length = BLOCK_SIZE w0 ∧
      (∃ w ∈ (my_realloc c3Heap (some 4120) 104 true).1.blocks,
        BLOCK_FREE w = true ∧ w.addr ≤ 4120 - BLOCKHEADER_SIZE ∧
        4120 - BLOCKHEADER_SIZE < BLOCK_END w) :=
  realloc_move_spec c3Heap []
    [{ addr := 4128, size := 8, data := [101, 102, 103, 104, 105, 106, 107, 108] },
     { addr := 4160, size := 160, data := List.replicate 160 7 }]
    { addr := 4096, size := 2 ^ 63 + 8, data := [1, 2, 3, 4, 5, 6, 7, 8] }
    4120 104 true
    (getBlock (resizeBlock c3Heap (4120 - BLOCKHEADER_SIZE) 104).1 104 true).1
    4160
    ⟨by decide, List.chain'_cons.mpr ⟨by decide,
      List.chain'_cons.mpr ⟨by decide, List.chain'_singleton _⟩⟩⟩
    (by decide) (by decide) rfl (by decide) (by decide) (by decide) (by decide)
    (by decide) (by decide)

end Malloc
